import Mathlib

/-!
# ReviewRadar core: shallow embedding and verification

This development embeds the algorithmic core of the ReviewRadar repository
(`server/services/rating-aggregator-service.ts`, `server/services/product-service.ts`,
`client/src/content-script.ts`) in Lean and settles the stated properties of the
Rating Aggregator, the deduplication, the Bounded Concurrency Runner
(`processInBatches`), the Fact Normalizer (the title post-processing block) and the
Extraction Cascades.

Modelling conventions:
* JS numbers carried inside records (`rating`, `weight`) are rationals; review
  counts are naturals; the aggregation arithmetic itself (which uses
  `Math.log10`) is carried out over `ℝ` with `Real.logb 10`.
* `x.toFixed(1)` / `x.toFixed(2)` followed by `parseFloat` is modelled as rounding
  to the nearest multiple of `1/10` / `1/100` (ties up), which agrees with JS on
  every value appearing here.
* Strings are lists of characters; `String.prototype.trim` and the regex
  operations of the title post-processing are implemented character by character
  following the regexes in the source.
-/

/-- One per-platform rating observation — `PlatformRating` of `shared/schema.ts`:
`{ platform, rating, reviewCount, verified, weight, url }`. -/
structure PlatformRating where
  platform : String
  rating : ℚ
  reviewCount : ℕ
  verified : Bool
  weight : ℚ
  url : Option String
  deriving DecidableEq, Repr

/-- The merged result — `AggregatedScore` of `shared/schema.ts`. -/
structure AggregatedScore where
  overallScore : ℝ
  totalReviewCount : ℕ
  confidenceScore : ℝ
  platformBreakdown : List PlatformRating

/-- `Math.log10`. -/
noncomputable def log10 (x : ℝ) : ℝ := Real.logb 10 x

/-- `rating.weight * Math.min(Math.log10(rating.reviewCount + 1), 5)`
(`rating-aggregator-service.ts` line 51). -/
noncomputable def effectiveWeight (r : PlatformRating) : ℝ :=
  (r.weight : ℝ) * min (log10 ((r.reviewCount : ℝ) + 1)) 5

/-- The accumulated `weightedSum` of the loop at lines 49–55. -/
noncomputable def weightedSumOf (rs : List PlatformRating) : ℝ :=
  (rs.map (fun r => (r.rating : ℝ) * effectiveWeight r)).sum

/-- The accumulated `weightSum` of the loop at lines 49–55. -/
noncomputable def weightSumOf (rs : List PlatformRating) : ℝ :=
  (rs.map effectiveWeight).sum

/-- The accumulated `totalReviewCount` of the loop at lines 49–55. -/
def totalReviewCountOf (rs : List PlatformRating) : ℕ :=
  (rs.map (fun r => r.reviewCount)).sum

/-- `parseFloat(x.toFixed(1))`: round to one decimal place. -/
noncomputable def round1 (x : ℝ) : ℝ := (round (x * 10) : ℤ) / 10

/-- `parseFloat(x.toFixed(2))`: round to two decimal places. -/
noncomputable def round2 (x : ℝ) : ℝ := (round (x * 100) : ℤ) / 100

/-- The aggregation of `getAggregatedScore`
(`rating-aggregator-service.ts` lines 34–70), as a function of the list
`platformRatings` produced by `fetchPlatformRatings`.  There is no filtering of
observations here: the loop runs over the whole list and `platformBreakdown`
is the list itself. -/
noncomputable def getAggregatedScore (platformRatings : List PlatformRating) : AggregatedScore :=
  if platformRatings.length = 0 then
    { overallScore := 0, totalReviewCount := 0, confidenceScore := 0, platformBreakdown := [] }
  else
    let weightedSum := weightedSumOf platformRatings
    let weightSum := weightSumOf platformRatings
    let totalReviewCount := totalReviewCountOf platformRatings
    let overallScore : ℝ := if 0 < weightSum then weightedSum / weightSum else 0
    let platformCountFactor : ℝ := min ((platformRatings.length : ℝ) / 5) 1
    let reviewCountFactor : ℝ := min (log10 ((totalReviewCount : ℝ) + 1) / 3) 1
    let confidenceScore : ℝ := platformCountFactor * 0.5 + reviewCountFactor * 0.5
    { overallScore := round1 overallScore,
      totalReviewCount := totalReviewCount,
      confidenceScore := round2 confidenceScore,
      platformBreakdown := platformRatings }

/-- `Map.prototype.get` on the insertion-ordered association list that models the
JS `Map` of `getUniquePlatformRatings`. -/
def mapGet (m : List (String × PlatformRating)) (k : String) : Option PlatformRating :=
  match m with
  | [] => none
  | (k', v) :: rest => if k' = k then some v else mapGet rest k

/-- `Map.prototype.set` on an existing key: JS `Map` keeps the original position. -/
def mapReplace (m : List (String × PlatformRating)) (k : String) (v : PlatformRating) :
    List (String × PlatformRating) :=
  match m with
  | [] => []
  | (k', v') :: rest => if k' = k then (k', v) :: rest else (k', v') :: mapReplace rest k v

/-- One iteration of the loop of `getUniquePlatformRatings`
(`rating-aggregator-service.ts` lines 185–190):
`if (!existing || rating.reviewCount > existing.reviewCount) platformMap.set(...)`. -/
def platformMapStep (m : List (String × PlatformRating)) (rating : PlatformRating) :
    List (String × PlatformRating) :=
  match mapGet m rating.platform with
  | none => m ++ [(rating.platform, rating)]
  | some existing =>
      if existing.reviewCount < rating.reviewCount then
        mapReplace m rating.platform rating
      else m

/-- `getUniquePlatformRatings` (`rating-aggregator-service.ts` lines 182–193). -/
def getUniquePlatformRatings (ratings : List PlatformRating) : List PlatformRating :=
  (ratings.foldl platformMapStep []).map (fun p => p.2)

/-- Spec-side formula: `effectiveWeight = trustWeight * min(log10(reviewCount + 1), 5)`
(spec §4.3 step 3), written from the spec's words. -/
noncomputable def specEffectiveWeight (r : PlatformRating) : ℝ :=
  (r.weight : ℝ) * min (Real.logb 10 ((r.reviewCount : ℝ) + 1)) 5

/-- Spec-side formula: `overallScore = Σ(rating * effectiveWeight) / Σ(effectiveWeight)`
(spec §4.3 step 4), written from the spec's words. -/
noncomputable def specWeightedMean (rs : List PlatformRating) : ℝ :=
  (rs.map (fun r => (r.rating : ℝ) * specEffectiveWeight r)).sum /
    (rs.map (fun r => specEffectiveWeight r)).sum

/-- Spec-side formula (before the claimed clamp):
`0.5 * min(platformCount / 5, 1) + 0.5 * min(log10(totalReviewCount + 1) / 3, 1)`
(spec §4.3 step 5), written from the spec's words. -/
noncomputable def specConfidence (platformCount total : ℕ) : ℝ :=
  0.5 * min ((platformCount : ℝ) / 5) 1 +
    0.5 * min (Real.logb 10 ((total : ℝ) + 1) / 3) 1

/-- Sample observation with `rating = 0` and a positive review count. -/
def obsZeroRating : PlatformRating :=
  { platform := "Amazon.com", rating := 0, reviewCount := 99, verified := true,
    weight := 9, url := none }

/-- Sample observation with `reviewCount = 0`. -/
def obsZeroCount : PlatformRating :=
  { platform := "BestBuy.com", rating := 4, reviewCount := 0, verified := false,
    weight := 8, url := none }

/-- A five-platform observation list whose review counts sum to 1000. -/
def fivePlatformObs : List PlatformRating :=
  [ { platform := "Amazon.com", rating := 4, reviewCount := 200, verified := true,
      weight := 9, url := none },
    { platform := "BestBuy.com", rating := 4, reviewCount := 200, verified := true,
      weight := 8, url := none },
    { platform := "Walmart.com", rating := 4, reviewCount := 200, verified := true,
      weight := 8, url := none },
    { platform := "Target.com", rating := 4, reviewCount := 200, verified := true,
      weight := 7, url := none },
    { platform := "Newegg.com", rating := 4, reviewCount := 200, verified := true,
      weight := 7, url := none } ]

/-- Keys of the association list modelling the JS `Map`. -/
def keysOf (m : List (String × PlatformRating)) : List String := m.map (fun p => p.1)

/-- Loop invariant of `getUniquePlatformRatings`: after processing the prefix
`seen`, the map has pairwise-distinct keys, each key is the platform of its
value, and each stored value is the first observation of its platform in `seen`
carrying the group-maximal review count. -/
def InvMap (m : List (String × PlatformRating)) (seen : List PlatformRating) : Prop :=
  (keysOf m).Nodup ∧
  (∀ p ∈ m, p.2.platform = p.1) ∧
  (∀ p ∈ m, ∀ s ∈ seen, s.platform = p.1 → s.reviewCount ≤ p.2.reviewCount) ∧
  (∀ s ∈ seen, ∃ p ∈ m, p.1 = s.platform) ∧
  (∀ p ∈ m, ∃ l1 l2, seen = l1 ++ p.2 :: l2 ∧
      ∀ s ∈ l1, s.platform = p.1 → s.reviewCount < p.2.reviewCount)

/-- Two observations for the same retailer whose platform strings differ only
in letter case. -/
def obsAmazonTitle : PlatformRating :=
  { platform := "Amazon.com", rating := 4.5, reviewCount := 10, verified := false,
    weight := 9, url := none }

/-- Upper-cased variant of the same platform. -/
def obsAmazonUpper : PlatformRating :=
  { platform := "AMAZON.COM", rating := 4.5, reviewCount := 1000, verified := false,
    weight := 9, url := none }

/-- Unverified observation, first in list order, tied on review count. -/
def obsWalTieFirst : PlatformRating :=
  { platform := "Walmart.com", rating := 4, reviewCount := 50, verified := false,
    weight := 8, url := none }

/-- Verified observation, second in list order, tied on review count. -/
def obsWalTieVerified : PlatformRating :=
  { platform := "Walmart.com", rating := 3, reviewCount := 50, verified := true,
    weight := 8, url := none }

/-- BestBuy observation with 10 reviews. -/
def obsBestBuy10 : PlatformRating :=
  { platform := "BestBuy.com", rating := 4, reviewCount := 10, verified := false,
    weight := 8, url := none }

/-- BestBuy observation with 1000 reviews. -/
def obsBestBuy1000 : PlatformRating :=
  { platform := "BestBuy.com", rating := 5, reviewCount := 1000, verified := false,
    weight := 8, url := none }

/-- Sample observation: rating 4, 9 reviews (so `log10(9 + 1) = 1`), weight 9. -/
def obsNineReviews : PlatformRating :=
  { platform := "Amazon.com", rating := 4, reviewCount := 9, verified := true,
    weight := 9, url := none }

deriving instance DecidableEq for Except

/-- `Promise.all` over tasks modelled by their settled outcomes: resolves with
the values in list order, or rejects when some member rejects (the model
surfaces the first rejection in list order). -/
def promiseAll {ε α : Type} : List (Except ε α) → Except ε (List α)
  | [] => Except.ok []
  | Except.ok a :: rest =>
      match promiseAll rest with
      | Except.ok as => Except.ok (a :: as)
      | Except.error e => Except.error e
  | Except.error e :: _ => Except.error e

/-- Index normalization of `Array.prototype.slice`: a negative index counts
from the end, and the result is clamped to `[0, len]`. -/
def jsSliceIdx (len : ℕ) (x : ℤ) : ℕ :=
  if x < 0 then ((len : ℤ) + x).toNat else min x.toNat len

/-- `Array.prototype.slice(start, stop)`, as used by
`tasks.slice(i, i + batchSize)` in `processInBatches`. -/
def jsSlice {α : Type} (l : List α) (start stop : ℤ) : List α :=
  (l.drop (jsSliceIdx l.length start)).take (jsSliceIdx l.length stop - jsSliceIdx l.length start)

/-- The loop of `processInBatches` (`rating-aggregator-service.ts` lines
204–208): `for (let i = 0; i < tasks.length; i += batchSize)`, awaiting
`Promise.all` of each slice and pushing its results; `fuel` bounds the number
of iterations and `none` means the fuel ran out with the loop still running,
i.e. the call has not settled. -/
def processGo {ε α : Type} (tasks : List (Except ε α)) (batchSize : ℤ) :
    List α → ℤ → ℕ → Option (Except ε (List α))
  | results, i, fuel =>
      if i < (tasks.length : ℤ) then
        match fuel with
        | 0 => none
        | Nat.succ fuel' =>
            match promiseAll (jsSlice tasks i (i + batchSize)) with
            | Except.error e => some (Except.error e)
            | Except.ok batchResults =>
                processGo tasks batchSize (results ++ batchResults) (i + batchSize) fuel'
      else some (Except.ok results)

/-- `processInBatches` (`rating-aggregator-service.ts` lines 198–211), over
tasks modelled by their settled outcomes, with an explicit fuel bound. -/
def processInBatches {ε α : Type} (tasks : List (Except ε α)) (batchSize : ℤ)
    (fuel : ℕ) : Option (Except ε (List α)) :=
  processGo tasks batchSize [] 0 fuel

/-- `searchAndExtractFromPlatform` (`rating-aggregator-service.ts` lines
294–396): the whole body sits in a `try { ... } catch { return null }`
(lines 392–395), so the task's promise always resolves — `body` models the
outcome of the body (lines 300–391), and an internal failure resolves to no
observation instead of rejecting. -/
def searchAndExtractFromPlatform {ε : Type} (body : Except ε (Option PlatformRating)) :
    Except ε (Option PlatformRating) :=
  match body with
  | Except.ok r => Except.ok r
  | Except.error _ => Except.ok none

/-- Recovered outcome of one probe body: its observation, or none on failure. -/
def probeOutcome {ε : Type} (body : Except ε (Option PlatformRating)) :
    Option PlatformRating :=
  match body with
  | Except.ok r => r
  | Except.error _ => none

/-- JS `\s` restricted to the whitespace characters that can occur in this
code base (ASCII whitespace plus NBSP). -/
def jsIsWs (c : Char) : Bool :=
  c == ' ' || c == '\t' || c == '\n' || c == '\r' || c == '\x0b' || c == '\x0c' || c == ' '

/-- JS `\w`: ASCII letters, digits and underscore. -/
def jsIsWordChar (c : Char) : Bool :=
  c.isAlpha || c.isDigit || c == '_'

/-- `String.prototype.trim`. -/
def jsTrimL (l : List Char) : List Char :=
  (((l.dropWhile (fun c => jsIsWs c)).reverse).dropWhile (fun c => jsIsWs c)).reverse

/-- `replace(/\s+/g, ' ')`: each maximal whitespace run becomes one space
(emitted at the run's last character). -/
def collapseWs : List Char → List Char
  | [] => []
  | [c] => if jsIsWs c then [' '] else [c]
  | c1 :: c2 :: rest =>
      if jsIsWs c1 && jsIsWs c2 then collapseWs (c2 :: rest)
      else if jsIsWs c1 then ' ' :: collapseWs (c2 :: rest)
      else c1 :: collapseWs (c2 :: rest)

/-- Length of the match of `/\s*\$\d+(\.\d+)?\s*/` at the head of `l`, if any
(all sub-patterns are greedy, and no backtracking can help, so the match is
deterministic). -/
def priceMatchLen (l : List Char) : Option ℕ :=
  let n1 := (l.takeWhile (fun c => jsIsWs c)).length
  match l.drop n1 with
  | '$' :: rest =>
      let d := (rest.takeWhile (fun c => c.isDigit)).length
      if d = 0 then none
      else
        let rest2 := rest.drop d
        let frac :=
          match rest2 with
          | '.' :: r3 =>
              let d2 := (r3.takeWhile (fun c => c.isDigit)).length
              if d2 = 0 then 0 else d2 + 1
          | _ => 0
        let n4 := ((rest2.drop frac).takeWhile (fun c => jsIsWs c)).length
        some (n1 + (1 + (d + (frac + n4))))
  | _ => none

/-- The scan of `replace(/\s*\$\d+(\.\d+)?\s*/g, ' ')`: each matched region is
replaced by one space and scanning resumes after it; the fuel (instantiated
with the string length) dominates the number of steps because every step
consumes at least one character. -/
def stripPricesGo : ℕ → List Char → List Char
  | 0, l => l
  | _ + 1, [] => []
  | fuel + 1, c :: cs =>
      match priceMatchLen (c :: cs) with
      | some n => ' ' :: stripPricesGo fuel ((c :: cs).drop n)
      | none => c :: stripPricesGo fuel cs

/-- `replace(/\s*\$\d+(\.\d+)?\s*/g, ' ')`. -/
def stripPrices (l : List Char) : List Char := stripPricesGo l.length l

/-- Length of the match of `/\s*\(\d+% Off\)\s*/i` at the head of `l`, if any. -/
def discountMatchLen (l : List Char) : Option ℕ :=
  let n1 := (l.takeWhile (fun c => jsIsWs c)).length
  match l.drop n1 with
  | '(' :: rest =>
      let d := (rest.takeWhile (fun c => c.isDigit)).length
      if d = 0 then none
      else
        match rest.drop d with
        | '%' :: ' ' :: o :: f1 :: f2 :: ')' :: rest2 =>
            if (o == 'O' || o == 'o') && (f1 == 'F' || f1 == 'f') &&
                (f2 == 'F' || f2 == 'f') then
              some (n1 + 1 + d + 6 + (rest2.takeWhile (fun c => jsIsWs c)).length)
            else none
        | _ => none
  | _ => none

/-- `replace(/\s*\(\d+% Off\)\s*/i, ' ')` — first occurrence only (no `g` flag). -/
def stripDiscount : List Char → List Char
  | [] => []
  | c :: cs =>
      match discountMatchLen (c :: cs) with
      | some n => ' ' :: (c :: cs).drop n
      | none => c :: stripDiscount cs

/-- `replace(/\s+#\w+$/i, '')`: strip one trailing `#token` (with the
preceding whitespace run), when present. -/
def stripTrailingHash (l : List Char) : List Char :=
  let r := l.reverse
  let w := (r.takeWhile (fun c => jsIsWordChar c)).length
  if w = 0 then l
  else
    match r.drop w with
    | '#' :: rest =>
        let s := (rest.takeWhile (fun c => jsIsWs c)).length
        if s = 0 then l else (rest.drop s).reverse
    | _ => l

/-- `replace(/\s+\(\w+\)$/i, '')`: strip one trailing parenthesised token
(with the preceding whitespace run), when present. -/
def stripTrailingParen (l : List Char) : List Char :=
  match l.reverse with
  | ')' :: r1 =>
      let w := (r1.takeWhile (fun c => jsIsWordChar c)).length
      if w = 0 then l
      else
        match r1.drop w with
        | '(' :: rest =>
            let s := (rest.takeWhile (fun c => jsIsWs c)).length
            if s = 0 then l else (rest.drop s).reverse
        | _ => l
  | _ => l

/-- The Fact Normalizer — the title post-processing block of
`extractProductFromUrl` (`product-service.ts` lines 552–568): collapse
whitespace, strip every price fragment, strip the first discount annotation,
strip one trailing `#token`, strip one trailing parenthesised token — each
step followed by `.trim()` — then truncate to 150 characters with an `'...'`
marker. -/
def factNormalizerL (title : List Char) : List Char :=
  let t1 := jsTrimL (collapseWs title)
  let t2 := jsTrimL (stripPrices t1)
  let t3 := jsTrimL (stripDiscount t2)
  let t4 := jsTrimL (stripTrailingHash t3)
  let t5 := jsTrimL (stripTrailingParen t4)
  if 150 < t5.length then t5.take 150 ++ ['.', '.', '.'] else t5

/-- The Fact Normalizer on strings. -/
def factNormalizer (s : String) : String := String.mk (factNormalizerL s.data)

/-- `String.prototype.trim` on strings. -/
def jsTrimS (s : String) : String := String.mk (jsTrimL s.data)

/-- Does `pat` start `l` (`String.prototype.startsWith`)? -/
def startsWithL : List Char → List Char → Bool
  | _, [] => true
  | [], _ :: _ => false
  | a :: as, b :: bs => a == b && startsWithL as bs

/-- Does `l` end with `pat` (`String.prototype.endsWith`)? -/
def endsWithL (l pat : List Char) : Bool := startsWithL l.reverse pat.reverse

/-- Substring containment, `String.prototype.includes`. -/
def hasSubL : List Char → List Char → Bool
  | [], pat => pat.isEmpty
  | a :: as, pat => startsWithL (a :: as) pat || hasSubL as pat

/-- `String.prototype.includes` on strings. -/
def hasSub (s pat : String) : Bool := hasSubL s.data pat.data

/-- The prefix of `s` before the first occurrence of `pat` (all of `s` when
`pat` does not occur): `s.split(pat)[0]` for a non-empty `pat`. -/
def splitFirstL : List Char → List Char → List Char
  | [], _ => []
  | a :: as, pat => if startsWithL (a :: as) pat then [] else a :: splitFirstL as pat

/-- Does `/\s[-|]\s/` match at the head of `l`? -/
def metaSepAt (l : List Char) : Bool :=
  match l with
  | a :: b :: c :: _ => jsIsWs a && (b == '-' || b == '|') && jsIsWs c
  | _ => false

/-- `content.split(/\s[-|]\s/)[0]`: the prefix before the first whitespace–dash
or whitespace–pipe separator. -/
def metaSplitFirst : List Char → List Char
  | [] => []
  | a :: as => if metaSepAt (a :: as) then [] else a :: metaSplitFirst as

/-- Length of the match of `/\$\d+(\.\d+)?/` (no surrounding `\s*`) at the
head of `l`, as used by the page-title cleaner. -/
def pricePatLen (l : List Char) : Option ℕ :=
  match l with
  | '$' :: rest =>
      let d := (rest.takeWhile (fun c => c.isDigit)).length
      if d = 0 then none
      else
        let rest2 := rest.drop d
        let frac :=
          match rest2 with
          | '.' :: r3 =>
              let d2 := (r3.takeWhile (fun c => c.isDigit)).length
              if d2 = 0 then 0 else d2 + 1
          | _ => 0
        some (1 + d + frac)
  | _ => none

/-- `replace(/\$\d+(\.\d+)?/, '')` — first occurrence only. -/
def removeFirstPrice : List Char → List Char
  | [] => []
  | c :: cs =>
      match pricePatLen (c :: cs) with
      | some n => (c :: cs).drop n
      | none => c :: removeFirstPrice cs

/-- Length of the match of `/\(\d+% Off\)/i` (no surrounding `\s*`) at the
head of `l`. -/
def discountPatLen (l : List Char) : Option ℕ :=
  match l with
  | '(' :: rest =>
      let d := (rest.takeWhile (fun c => c.isDigit)).length
      if d = 0 then none
      else
        match rest.drop d with
        | '%' :: ' ' :: o :: f1 :: f2 :: ')' :: _ =>
            if (o == 'O' || o == 'o') && (f1 == 'F' || f1 == 'f') &&
                (f2 == 'F' || f2 == 'f') then
              some (1 + d + 6)
            else none
        | _ => none
  | _ => none

/-- `replace(/\(\d+% Off\)/i, '')` — first occurrence only. -/
def removeFirstDiscount : List Char → List Char
  | [] => []
  | c :: cs =>
      match discountPatLen (c :: cs) with
      | some n => (c :: cs).drop n
      | none => c :: removeFirstDiscount cs

/-- Structured-data `@graph` member, with the fields the cascades read. -/
structure SDGraphItem where
  atType : Option String
  name : Option String
  deriving DecidableEq, Repr

/-- One parsed `application/ld+json` block, with the fields the cascades read.
`breadcrumbNames` models `data.itemListElement` when it is an array, each
entry being that item's `item.name` when present; `hasOffersPriceOrSku` models
the truthiness of `data.offers || data.price || data.sku`. -/
structure SDBlock where
  atType : Option String
  name : Option String
  graph : Option (List SDGraphItem)
  breadcrumbNames : Option (List (Option String))
  hasOffersPriceOrSku : Bool
  deriving DecidableEq, Repr

/-- JS truthiness of an optional string field (absent or empty is falsy). -/
def truthyStr : Option String → Bool
  | some s => !s.data.isEmpty
  | none => false

/-- A page as the two cascades consume it: parsed structured-data blocks
(`none` for a block whose JSON failed to parse — the cascades skip it), the
meta-tag `content` attribute and the element text per selector string, the
`h1` texts in document order, and the document title. -/
structure Page where
  structuredBlocks : List (Option SDBlock)
  metaContent : String → Option String
  selectorText : String → Option String
  h1Texts : List String
  title : String

/-- The meta-tag selector list probed by both cascades
(`content-script.ts` lines 726–732 and `product-service.ts` lines 343–349). -/
def metaTitleTags : List String :=
  ["meta[property=\"og:title\"]", "meta[name=\"twitter:title\"]", "meta[name=\"title\"]",
   "meta[property=\"product:title\"]", "meta[itemprop=\"name\"]"]

/-- The `@graph` scan shared by both structured-data extractors: the first
`Product` item with a truthy name. -/
def graphTitle : Option (List SDGraphItem) → Option String
  | some items =>
      items.findSome? (fun (it : SDGraphItem) =>
        if it.atType == some "Product" && truthyStr it.name then it.name else none)
  | none => none

/-- One block of `extractStructuredData` (`content-script.ts` lines 691–715):
a direct `Product` with a truthy name, else a `Product` inside `@graph`. -/
def clientBlockTitle (b : SDBlock) : Option String :=
  if b.atType == some "Product" && truthyStr b.name then b.name
  else graphTitle b.graph

/-- `extractStructuredData` (`content-script.ts` lines 688–722), projected to
the title. -/
def extractStructuredData (p : Page) : Option String :=
  p.structuredBlocks.findSome? (fun ob => ob.bind clientBlockTitle)

/-- The per-tag acceptance of the client's `extractFromMetaTags`
(`content-script.ts` lines 736–748), on a truthy `content` attribute: the
client trims the content before testing it. -/
def metaTagTitle (raw : String) : Option String :=
  if 5 < (jsTrimS raw).length && !hasSub (jsTrimS raw) " - " && !hasSub (jsTrimS raw) " | " then
    some (jsTrimS raw)
  else if hasSub (jsTrimS raw) " - " || hasSub (jsTrimS raw) " | " then
    if 5 < (String.mk (metaSplitFirst (jsTrimS raw).data)).length then
      some (jsTrimS (String.mk (metaSplitFirst (jsTrimS raw).data)))
    else none
  else none

/-- `extractFromMetaTags` (`content-script.ts` lines 725–753). -/
def extractFromMetaTags (p : Page) : Option String :=
  metaTitleTags.findSome? (fun sel =>
    (p.metaContent sel).bind (fun raw =>
      if raw.data.isEmpty then none else metaTagTitle raw))

/-- The selector list of `extractFromCommonSelectors`
(`content-script.ts` lines 758–784). -/
def clientCommonSelectors : List String :=
  ["h1.product-title", "h1.product-name", "h1.product_title", "#productTitle",
   ".product-title h1", ".product-name h1", ".product_title h1",
   "[data-testid=\"product-title\"]", "[data-automation=\"product-title\"]",
   ".title[itemprop=\"name\"]", "[itemprop=\"name\"]",
   "h1.heading-5", ".sku-title h1", ".shop-product-title h1",
   "[data-track=\"product-title\"]", ".heading-5.v-fw-regular",
   "[data-testid=\"heading-product-title\"]",
   "#productTitle", "#title", ".product-title-word-break",
   "[data-testid=\"product-title\"]", ".prod-ProductTitle",
   "[data-test=\"product-title\"]", ".Heading__StyledHeading-sc-1mp23s9-0",
   ".product-title", ".product-name",
   "h1.title", "h1.name", "h1.main-title"]

/-- `extractFromCommonSelectors` (`content-script.ts` lines 756–816): the
fixed selector list, then the generic `h1` fallback with the non-product
phrase filter; returns the accepted title and the matching selector. -/
def extractFromCommonSelectors (p : Page) : Option (String × String) :=
  (clientCommonSelectors.findSome? (fun sel =>
    (p.selectorText sel).bind (fun raw =>
      if raw.data.isEmpty then none
      else if 5 < (jsTrimS raw).length && (jsTrimS raw).length < 250 then
        some (jsTrimS raw, sel)
      else none))).orElse (fun _ =>
      p.h1Texts.findSome? (fun t =>
        if t.data.isEmpty then none
        else if 10 < (jsTrimS t).length && (jsTrimS t).length < 200 &&
            !hasSub (jsTrimS t) "Shopping Cart" && !hasSub (jsTrimS t) "Checkout" &&
            !hasSub (jsTrimS t) "Login" && !hasSub (jsTrimS t) "Sign in" then
          some (jsTrimS t, "h1")
        else none))

/-- The page-title separator list (`content-script.ts` line 827,
`product-service.ts` line 484). -/
def siteSeparators : List String := [" - ", " | ", " – ", " • ", " › ", " :: "]

/-- The retailer-name suffix list (`content-script.ts` lines 830–834,
`product-service.ts` lines 487–491). -/
def siteSuffixes : List String :=
  ["Amazon.com", "Amazon", "Walmart.com", "Walmart", "Target", "Best Buy",
   "Newegg.com", "Newegg", "eBay", "Etsy", "Home Depot", "Lowe\x27s",
   "Shop", "Online Shopping", "Free Shipping", "Official Site"]

/-- The separator loop: split on the first separator (in list order) that
occurs, keep the first part, trim, and stop. -/
def splitBySeparators (t : String) : String :=
  match siteSeparators.find? (fun sep => hasSub t sep) with
  | some sep => jsTrimS (String.mk (splitFirstL t.data sep.data))
  | none => t

/-- The suffix loop: for each suffix in order, strip it from the end and then
from the start when present, trimming after each strip. -/
def stripSuffixes : List String → List Char → List Char
  | [], t => t
  | suf :: rest, t =>
      let t1 := if endsWithL t suf.data then jsTrimL (t.take (t.length - suf.data.length))
        else t
      let t2 := if startsWithL t1 suf.data then jsTrimL (t1.drop suf.data.length) else t1
      stripSuffixes rest t2

/-- The page-title cleaner shared by `extractFromPageTitle`
(`content-script.ts` lines 826–867) and Method 5 of `extractProductFromUrl`
(`product-service.ts` lines 483–523): separator split, suffix stripping, one
price strip, one discount strip, then the `(5, 200)` length acceptance. -/
def pageTitleCore (pageTitle : String) : String :=
  jsTrimS (String.mk (removeFirstDiscount
    (jsTrimS (String.mk (removeFirstPrice
      (String.mk (stripSuffixes siteSuffixes (splitBySeparators pageTitle).data)).data))).data))

/-- The `(5, 200)` length acceptance on the cleaned page title. -/
def cleanPageTitle (pageTitle : String) : Option String :=
  if 5 < (pageTitleCore pageTitle).length && (pageTitleCore pageTitle).length < 200 then
    some (pageTitleCore pageTitle)
  else none

/-- `extractFromPageTitle` (`content-script.ts` lines 819–868). -/
def extractFromPageTitle (p : Page) : Option String :=
  if p.title.data.isEmpty || p.title.length < 5 then none
  else cleanPageTitle p.title

/-- `detectProduct` (`content-script.ts` lines 602–685), projected to the
detected title: structured data, then meta tags, then common selectors, then
the page title, stopping at the first acceptance; `none` models the `null`
return ("no product detected").  The `url`, `source` and image fields of the
returned product come from `window.location` and the image detector and are
not modelled here. -/
def detectProduct (p : Page) : Option String :=
  match extractStructuredData p with
  | some t => some t
  | none =>
      match extractFromMetaTags p with
      | some t => some t
      | none =>
          match extractFromCommonSelectors p with
          | some r => some r.1
          | none => extractFromPageTitle p

/-- The `BreadcrumbList` rule of Method 1: the last breadcrumb item's truthy
name. -/
def breadcrumbTitle : Option (List (Option String)) → Option String
  | some items =>
      match items.getLast? with
      | some lastName => if truthyStr lastName then lastName else none
      | none => none
  | none => none

/-- Method 1 of `extractProductFromUrl` (`product-service.ts` lines 280–339)
on one parsed block: direct `Product` with truthy name, else the last
`BreadcrumbList` item's name, else a `Product` inside `@graph`, else the
non-standard name-with-offers/price/sku rule. -/
def serverBlockTitle (b : SDBlock) : Option String :=
  if b.atType == some "Product" && truthyStr b.name then b.name
  else
    (if b.atType == some "BreadcrumbList" then breadcrumbTitle b.breadcrumbNames
     else none).orElse (fun _ =>
      (graphTitle b.graph).orElse (fun _ =>
        if truthyStr b.name && b.hasOffersPriceOrSku then b.name else none))

/-- The `.each` loop over `script[type="application/ld+json"]` blocks of
Method 1: the first block that matches any rule wins; parse failures are
skipped. -/
def serverStructuredScan (blocks : List (Option SDBlock)) : Option String :=
  blocks.findSome? (fun ob => ob.bind serverBlockTitle)

/-- The per-tag acceptance of the server's meta scan, on a truthy `content`
attribute: unlike the client it tests the raw, untrimmed content (only the
separator branch trims its first part). -/
def serverMetaTitle (raw : String) : Option String :=
  if 5 < raw.length && !hasSub raw " - " && !hasSub raw " | " then
    some raw
  else if hasSub raw " - " || hasSub raw " | " then
    if 5 < (String.mk (metaSplitFirst raw.data)).length then
      some (jsTrimS (String.mk (metaSplitFirst raw.data)))
    else none
  else none

/-- Method 2 of `extractProductFromUrl` (`product-service.ts` lines 351–369). -/
def serverMetaScan (p : Page) : Option String :=
  metaTitleTags.findSome? (fun sel =>
    (p.metaContent sel).bind (fun raw =>
      if raw.data.isEmpty then none else serverMetaTitle raw))

/-- The Method 3 selector list (`product-service.ts` lines 393–417). -/
def serverSelectors : List String :=
  ["h1.product-title", "h1.product-name", "h1.product_title", "#productTitle",
   ".product-title h1", ".product-name h1", ".product_title h1",
   "[data-testid=\"product-title\"]", "[data-automation=\"product-title\"]",
   ".title[itemprop=\"name\"]", "[itemprop=\"name\"]",
   "h1.heading-5", ".sku-title h1", ".shop-product-title h1",
   "[data-track=\"product-title\"]", ".heading-5.v-fw-regular",
   "[data-testid=\"heading-product-title\"]",
   "#productTitle", "#title", ".product-title-word-break",
   "[data-testid=\"product-title\"]", ".prod-ProductTitle",
   "[data-test=\"product-title\"]", ".Heading__StyledHeading-sc-1mp23s9-0",
   "h1[data-test=\"product-title\"]", "span[data-test=\"product-title\"]",
   ".product-title", ".product-name"]

/-- Method 3 of `extractProductFromUrl` (`product-service.ts` lines 391–430):
first selector whose trimmed text is non-empty with length in `(5, 250)`. -/
def serverSelectorScan (p : Page) : Option String :=
  serverSelectors.findSome? (fun sel =>
    (p.selectorText sel).bind (fun raw =>
      if (jsTrimS raw).data.isEmpty then none
      else if 5 < (jsTrimS raw).length && (jsTrimS raw).length < 250 then some (jsTrimS raw)
      else none))

/-- Method 4 of `extractProductFromUrl` (`product-service.ts` lines 458–473):
generic `h1` scan with the non-product phrase filter. -/
def serverH1Scan (p : Page) : Option String :=
  p.h1Texts.findSome? (fun t =>
    if 10 < (jsTrimS t).length && (jsTrimS t).length < 200 &&
        !hasSub (jsTrimS t) "Shopping Cart" && !hasSub (jsTrimS t) "Checkout" &&
        !hasSub (jsTrimS t) "Login" && !hasSub (jsTrimS t) "Sign in" then
      some (jsTrimS t)
    else none)

/-- The `productTitle` accumulated by Methods 1–5 of `extractProductFromUrl`
on a fetched page (`product-service.ts` lines 280–523), before the
post-processing block: the empty string models the still-unset `''`.  The
Amazon-ASIN URL shortcut (lines 224–269) and the fetch-failure fallbacks
(lines 570–609) sit outside this modelled path. -/
def serverRawTitle (p : Page) : String :=
  match serverStructuredScan p.structuredBlocks with
  | some t => t
  | none =>
      match serverMetaScan p with
      | some t => t
      | none =>
          match serverSelectorScan p with
          | some t => t
          | none =>
              match serverH1Scan p with
              | some t => t
              | none =>
                  if (jsTrimS p.title).length < 5 then "Unknown Product"
                  else
                    match cleanPageTitle (jsTrimS p.title) with
                    | some t => t
                    | none => ""

/-- The title post-processing block (`product-service.ts` lines 552–568): the
Fact Normalizer runs only on a truthy title. -/
def serverPostTitle (p : Page) : String :=
  if (serverRawTitle p).data.isEmpty then serverRawTitle p
  else factNormalizer (serverRawTitle p)

/-- The final fallback (`product-service.ts` lines 611–613): an empty
post-processed title falls back to the URL-derived placeholder. -/
def serverExtractTitle (source : String) (p : Page) : String :=
  if (serverPostTitle p).data.isEmpty then "Product from " ++ source
  else serverPostTitle p

/-- A structured-data block declaring a `Product` whose name is the price-like
string `"$9"`. -/
def sdDollarNine : SDBlock :=
  { atType := some "Product", name := some "$9", graph := none,
    breadcrumbNames := none, hasOffersPriceOrSku := false }

/-- Page exposing both the `"$9"`-named Product block and a matching DOM
title selector. -/
def pageDollarNine : Page :=
  { structuredBlocks := [some sdDollarNine],
    metaContent := fun _ => none,
    selectorText := fun sel => if sel = "#productTitle" then some "Great Gadget Pro Max" else none,
    h1Texts := [],
    title := "" }

/-- A structured-data block declaring a `Product` with a clean name. -/
def sdSony : SDBlock :=
  { atType := some "Product", name := some "Sony WH-1000XM4 Headphones", graph := none,
    breadcrumbNames := none, hasOffersPriceOrSku := false }

/-- Page exposing both a clean Product block and a matching DOM selector. -/
def pageSony : Page :=
  { structuredBlocks := [some sdSony],
    metaContent := fun _ => none,
    selectorText := fun sel => if sel = "#productTitle" then some "Selector Title Here" else none,
    h1Texts := [],
    title := "" }

/-- Page where every extraction strategy fails. -/
def pageEmpty : Page :=
  { structuredBlocks := [],
    metaContent := fun _ => none,
    selectorText := fun _ => none,
    h1Texts := [],
    title := "" }

/-- Pointwise whitespace discipline: every whitespace character is `' '`. -/
def wsFlat (l : List Char) : Prop := ∀ c ∈ l, jsIsWs c = true → c = ' '

/-- No two adjacent whitespace characters. -/
def noWsPair (l : List Char) : Prop :=
  l.Chain' (fun a b => ¬(jsIsWs a = true ∧ jsIsWs b = true))

theorem log10_one_eq : log10 1 = 0 := by
  simp [log10]

theorem log10_ten_eq : log10 10 = 1 := by
  simp [log10]

theorem log10_thousand_le (x : ℝ) (hx : (1000 : ℝ) ≤ x) : (3 : ℝ) ≤ log10 x := by
  have h10 : (1 : ℝ) < 10 := by norm_num
  have hx0 : (0 : ℝ) < x := by linarith
  have h : ((10 : ℝ) ^ (3 : ℝ)) ≤ x := by
    have : ((10 : ℝ) ^ (3 : ℝ)) = ((10 : ℝ) ^ (3 : ℕ)) := by
      rw [show ((3 : ℝ)) = ((3 : ℕ) : ℝ) by norm_num, Real.rpow_natCast]
    rw [this]; norm_num
    linarith
  exact (Real.le_logb_iff_rpow_le h10 hx0).mpr h

theorem log10_nonneg_of_one_le {x : ℝ} (hx : (1 : ℝ) ≤ x) : 0 ≤ log10 x :=
  Real.logb_nonneg (by norm_num) hx

theorem round1_zero : round1 0 = 0 := by
  unfold round1
  rw [zero_mul, round_zero]
  norm_num

theorem round2_zero : round2 0 = 0 := by
  unfold round2
  rw [zero_mul, round_zero]
  norm_num

theorem round2_one : round2 1 = 1 := by
  unfold round2
  rw [one_mul, show ((100 : ℝ)) = ((100 : ℕ) : ℝ) by norm_num, round_natCast]
  norm_num

theorem round2_nonneg {x : ℝ} (hx : 0 ≤ x) : 0 ≤ round2 x := by
  unfold round2
  have h : (0 : ℤ) ≤ round (x * 100) := by
    rw [round_eq]
    exact Int.floor_nonneg.mpr (by linarith)
  have h' : (0 : ℝ) ≤ ((round (x * 100) : ℤ) : ℝ) := by exact_mod_cast h
  positivity

theorem round2_le_one {x : ℝ} (hx : x ≤ 1) : round2 x ≤ 1 := by
  unfold round2
  have h : round (x * 100) ≤ 100 := by
    rw [round_eq]
    have h2 : (⌊x * 100 + 1 / 2⌋ : ℤ) < 101 := Int.floor_lt.mpr (by push_cast; linarith)
    omega
  have h' : ((round (x * 100) : ℤ) : ℝ) ≤ 100 := by exact_mod_cast h
  linarith

theorem specConfidence_nonneg (n t : ℕ) : 0 ≤ specConfidence n t := by
  unfold specConfidence
  have hn : (0 : ℝ) ≤ (n : ℝ) := Nat.cast_nonneg n
  have h1 : (0 : ℝ) ≤ min ((n : ℝ) / 5) 1 := le_min (by linarith) (by norm_num)
  have hlog : (0 : ℝ) ≤ Real.logb 10 ((t : ℝ) + 1) := by
    have ht : (0 : ℝ) ≤ (t : ℝ) := Nat.cast_nonneg t
    exact Real.logb_nonneg (by norm_num) (by linarith)
  have h2 : (0 : ℝ) ≤ min (Real.logb 10 ((t : ℝ) + 1) / 3) 1 :=
    le_min (by linarith) (by norm_num)
  linarith

theorem specConfidence_le_one (n t : ℕ) : specConfidence n t ≤ 1 := by
  unfold specConfidence
  have h1 : min ((n : ℝ) / 5) 1 ≤ 1 := min_le_right _ _
  have h2 : min (Real.logb 10 ((t : ℝ) + 1) / 3) 1 ≤ 1 := min_le_right _ _
  linarith

theorem specConfidence_empty : specConfidence 0 0 = 0 := by
  unfold specConfidence
  rw [Nat.cast_zero, show ((0 : ℝ) + 1) = 1 by norm_num, Real.logb_one]
  rw [show ((0 : ℝ)) / 5 = 0 by norm_num, show ((0 : ℝ)) / 3 = 0 by norm_num]
  rw [min_eq_left (by norm_num : (0 : ℝ) ≤ 1)]
  norm_num

/-- C1 (amended): `getAggregatedScore` performs no filtering at all.  Every
observation — including one with `rating <= 0` or `reviewCount = 0` — keeps its
entry in `platformBreakdown` and contributes its `reviewCount` to
`totalReviewCount`; an observation with `reviewCount = 0` does contribute zero
effective weight (because `log10(0 + 1) = 0`).  The `rating > 0 && reviewCount > 0`
filtering the spec describes happens upstream, in the per-platform extractors,
not in the aggregation. -/
theorem aggregate_no_filtering (obs : List PlatformRating) :
    (getAggregatedScore obs).platformBreakdown = obs ∧
    (getAggregatedScore obs).totalReviewCount = (obs.map (fun r => r.reviewCount)).sum ∧
    ∀ o ∈ obs, o.reviewCount = 0 → effectiveWeight o = 0 := by
  refine ⟨?_, ?_, ?_⟩
  · unfold getAggregatedScore
    rcases obs with _ | ⟨a, rest⟩ <;> simp
  · unfold getAggregatedScore totalReviewCountOf
    rcases obs with _ | ⟨a, rest⟩ <;> simp
  · intro o _ h
    have h1 : ((o.reviewCount : ℝ) + 1) = 1 := by rw [h]; norm_num
    unfold effectiveWeight
    rw [h1, log10_one_eq, min_eq_left (by norm_num : (0 : ℝ) ≤ 5), mul_zero]

/-- C1, counterexample: an observation with `rating = 0` and `reviewCount = 99`
is *not* dropped by the aggregation — it contributes its 99 reviews to
`totalReviewCount` and appears in `platformBreakdown`. -/
theorem aggregate_no_filtering_cex :
    (getAggregatedScore [obsZeroRating]).totalReviewCount = 99 ∧
    (getAggregatedScore [obsZeroRating]).platformBreakdown ≠ [] := by
  constructor
  · rfl
  · have hb : (getAggregatedScore [obsZeroRating]).platformBreakdown = [obsZeroRating] := rfl
    rw [hb]
    simp

/-- C1, witness: the zero-review-count observation has zero effective weight. -/
theorem aggregate_no_filtering_witness : effectiveWeight obsZeroCount = 0 :=
  (aggregate_no_filtering [obsZeroCount]).2.2 obsZeroCount (by simp) rfl

theorem confidenceScore_of_ne_nil (obs : List PlatformRating) (h : obs ≠ []) :
    (getAggregatedScore obs).confidenceScore
      = round2 (min ((obs.length : ℝ) / 5) 1 * 0.5 +
          min (log10 ((totalReviewCountOf obs : ℝ) + 1) / 3) 1 * 0.5) := by
  unfold getAggregatedScore
  rw [if_neg (by simpa [List.length_eq_zero] using h)]

theorem overallScore_of_ne_nil (obs : List PlatformRating) (h : obs ≠ []) :
    (getAggregatedScore obs).overallScore
      = round1 (if 0 < weightSumOf obs then weightedSumOf obs / weightSumOf obs else 0) := by
  unfold getAggregatedScore
  rw [if_neg (by simpa [List.length_eq_zero] using h)]

/-- C2 (amended): the aggregated `confidenceScore` equals
`0.5 * min(platformCount / 5, 1) + 0.5 * min(log10(totalReviewCount + 1) / 3, 1)`
rounded to two decimals, with *no* 0.95 clamp — the code never clamps, so the
score lies in `[0, 1]` (and does reach 1), and it is exactly 0 for an empty
observation list. -/
theorem confidence_formula_and_bounds (obs : List PlatformRating) :
    (getAggregatedScore obs).confidenceScore
        = round2 (specConfidence obs.length (totalReviewCountOf obs)) ∧
    0 ≤ (getAggregatedScore obs).confidenceScore ∧
    (getAggregatedScore obs).confidenceScore ≤ 1 ∧
    (obs = [] → (getAggregatedScore obs).confidenceScore = 0) := by
  have hkey : ∀ n t : ℕ,
      min ((n : ℝ) / 5) 1 * 0.5 + min (log10 ((t : ℝ) + 1) / 3) 1 * 0.5
        = specConfidence n t := by
    intro n t
    unfold specConfidence log10
    ring
  have heq : (getAggregatedScore obs).confidenceScore
      = round2 (specConfidence obs.length (totalReviewCountOf obs)) := by
    rcases eq_or_ne obs [] with rfl | hne
    · have h0 : (getAggregatedScore ([] : List PlatformRating)).confidenceScore = 0 := rfl
      have ht : totalReviewCountOf ([] : List PlatformRating) = 0 := rfl
      rw [h0, ht]
      simp only [List.length_nil]
      rw [specConfidence_empty, round2_zero]
    · rw [confidenceScore_of_ne_nil obs hne, hkey]
  refine ⟨heq, ?_, ?_, ?_⟩
  · rw [heq]
    exact round2_nonneg (specConfidence_nonneg _ _)
  · rw [heq]
    exact round2_le_one (specConfidence_le_one _ _)
  · intro h
    subst h
    rw [heq]
    have ht : totalReviewCountOf ([] : List PlatformRating) = 0 := rfl
    rw [ht]
    simp only [List.length_nil]
    rw [specConfidence_empty, round2_zero]

/-- C2, counterexample: five platforms with 200 reviews each give
`confidenceScore = 1 > 0.95`, so the claimed clamp to `[0, 0.95]` does not
exist in the code. -/
theorem confidence_exceeds_claimed_cap_cex :
    (0.95 : ℝ) < (getAggregatedScore fivePlatformObs).confidenceScore := by
  have hne : fivePlatformObs ≠ [] := by simp [fivePlatformObs]
  rw [confidenceScore_of_ne_nil fivePlatformObs hne]
  have hlen : fivePlatformObs.length = 5 := rfl
  have htot : totalReviewCountOf fivePlatformObs = 1000 := rfl
  rw [hlen, htot]
  have h1 : min (((5 : ℕ) : ℝ) / 5) 1 = 1 := by norm_num
  have h2 : min (log10 (((1000 : ℕ) : ℝ) + 1) / 3) 1 = 1 := by
    have h3 : (3 : ℝ) ≤ log10 (((1000 : ℕ) : ℝ) + 1) := by
      apply log10_thousand_le
      push_cast
      norm_num
    exact min_eq_right ((le_div_iff₀ (by norm_num : (0 : ℝ) < 3)).mpr (by linarith))
  rw [h1, h2, show (1 : ℝ) * 0.5 + 1 * 0.5 = 1 by norm_num, round2_one]
  norm_num

/-- C2, witness: the empty observation list has confidence exactly 0. -/
theorem confidence_empty_witness : (getAggregatedScore []).confidenceScore = 0 :=
  (confidence_formula_and_bounds []).2.2.2 rfl

theorem weightSumOf_nonneg (obs : List PlatformRating) (hw : ∀ r ∈ obs, 0 ≤ r.weight) :
    0 ≤ weightSumOf obs := by
  unfold weightSumOf
  apply List.sum_nonneg
  intro x hx
  simp only [List.mem_map] at hx
  obtain ⟨r, hr, rfl⟩ := hx
  unfold effectiveWeight
  apply mul_nonneg
  · exact_mod_cast hw r hr
  · apply le_min
    · apply log10_nonneg_of_one_le
      have h0 : (0 : ℝ) ≤ (r.reviewCount : ℝ) := Nat.cast_nonneg _
      linarith
    · norm_num

/-- C3: for every observation list with nonnegative trust weights (the code's
weights are 4–9), the aggregated `overallScore` is the trust- and log-damped
weighted mean `Σ(rating * effectiveWeight) / Σ(effectiveWeight)` with
`effectiveWeight = trustWeight * min(log10(reviewCount + 1), 5)`, rounded to
one decimal place, and it is 0 when the weight sum is zero. -/
theorem overall_score_is_rounded_weighted_mean (obs : List PlatformRating)
    (hw : ∀ r ∈ obs, 0 ≤ r.weight) :
    (getAggregatedScore obs).overallScore
      = if weightSumOf obs = 0 then 0 else round1 (specWeightedMean obs) := by
  rcases eq_or_ne obs [] with rfl | hne
  · have h0 : (getAggregatedScore ([] : List PlatformRating)).overallScore = 0 := rfl
    have hw0 : weightSumOf ([] : List PlatformRating) = 0 := by simp [weightSumOf]
    rw [h0, hw0, if_pos rfl]
  · rw [overallScore_of_ne_nil obs hne]
    have hnn := weightSumOf_nonneg obs hw
    rcases eq_or_lt_of_le hnn with h0 | hpos
    · rw [if_neg (by rw [← h0]; exact lt_irrefl 0), if_pos h0.symm, round1_zero]
    · rw [if_pos hpos, if_neg (ne_of_gt hpos)]
      rfl

/-- C3, witness: a single observation with rating 4, 9 reviews and weight 9
satisfies the weight hypothesis and the weighted-mean equation. -/
theorem overall_score_witness :
    (∀ r ∈ [obsNineReviews], 0 ≤ r.weight) ∧
    ((getAggregatedScore [obsNineReviews]).overallScore
      = if weightSumOf [obsNineReviews] = 0 then 0
        else round1 (specWeightedMean [obsNineReviews])) := by
  have hw : ∀ r ∈ [obsNineReviews], 0 ≤ r.weight := by
    intro r hr
    simp only [List.mem_singleton] at hr
    subst hr
    decide
  exact ⟨hw, overall_score_is_rounded_weighted_mean [obsNineReviews] hw⟩

theorem mapGet_eq_none_iff (m : List (String × PlatformRating)) (k : String) :
    mapGet m k = none ↔ ∀ p ∈ m, p.1 ≠ k := by
  induction m with
  | nil => simp [mapGet]
  | cons hd tl ih =>
      obtain ⟨k', v⟩ := hd
      by_cases h : k' = k
      · subst h
        simp [mapGet]
      · simp only [mapGet, if_neg h, ih, List.mem_cons]
        constructor
        · rintro ht p (rfl | hp)
          · exact h
          · exact ht p hp
        · intro ht p hp
          exact ht p (Or.inr hp)

theorem mapGet_some_mem {m : List (String × PlatformRating)} {k : String}
    {v : PlatformRating} (h : mapGet m k = some v) : (k, v) ∈ m := by
  induction m with
  | nil => simp [mapGet] at h
  | cons hd tl ih =>
      obtain ⟨k', v'⟩ := hd
      by_cases hk : k' = k
      · subst hk
        simp only [mapGet, if_pos] at h
        obtain rfl := Option.some.inj h
        exact List.mem_cons_self _ _
      · simp only [mapGet, if_neg hk] at h
        exact List.mem_cons_of_mem _ (ih h)

theorem mem_mapGet_of_nodup {m : List (String × PlatformRating)}
    (hnd : (keysOf m).Nodup) {p : String × PlatformRating} (hp : p ∈ m) :
    mapGet m p.1 = some p.2 := by
  induction m with
  | nil => simp at hp
  | cons hd tl ih =>
      obtain ⟨k', v'⟩ := hd
      simp only [keysOf, List.map_cons, List.nodup_cons] at hnd
      rcases List.mem_cons.mp hp with rfl | hp'
      · simp [mapGet]
      · have hk : k' ≠ p.1 := by
          intro h
          exact hnd.1 (h ▸ (List.mem_map_of_mem (fun q => q.1) hp'))
        simp only [mapGet, if_neg hk]
        exact ih hnd.2 hp'

theorem keysOf_mapReplace (m : List (String × PlatformRating)) (k : String)
    (v : PlatformRating) : keysOf (mapReplace m k v) = keysOf m := by
  induction m with
  | nil => rfl
  | cons hd tl ih =>
      obtain ⟨k', v'⟩ := hd
      by_cases h : k' = k
      · simp [mapReplace, if_pos h, keysOf]
      · simp only [mapReplace, if_neg h, keysOf, List.map_cons]
        exact congrArg (List.cons k') (by simpa [keysOf] using ih)

theorem mem_mapReplace_of_nodup {m : List (String × PlatformRating)}
    (hnd : (keysOf m).Nodup) (k : String) (v : PlatformRating)
    {p : String × PlatformRating} (hp : p ∈ mapReplace m k v) :
    p = (k, v) ∨ (p ∈ m ∧ p.1 ≠ k) := by
  induction m with
  | nil => simp [mapReplace] at hp
  | cons hd tl ih =>
      obtain ⟨k', v'⟩ := hd
      simp only [keysOf, List.map_cons, List.nodup_cons] at hnd
      by_cases h : k' = k
      · subst h
        simp only [mapReplace, if_pos rfl] at hp
        rcases List.mem_cons.mp hp with rfl | hp'
        · exact Or.inl rfl
        · refine Or.inr ⟨List.mem_cons_of_mem _ hp', ?_⟩
          intro hpk
          exact hnd.1 (hpk ▸ (List.mem_map_of_mem (fun q => q.1) hp'))
      · simp only [mapReplace, if_neg h] at hp
        rcases List.mem_cons.mp hp with rfl | hp'
        · exact Or.inr ⟨List.mem_cons_self _ _, h⟩
        · rcases ih hnd.2 hp' with h1 | ⟨h2, h3⟩
          · exact Or.inl h1
          · exact Or.inr ⟨List.mem_cons_of_mem _ h2, h3⟩

theorem mem_mapReplace_self {m : List (String × PlatformRating)} {k : String}
    {ex : PlatformRating} (h : mapGet m k = some ex) (v : PlatformRating) :
    (k, v) ∈ mapReplace m k v := by
  induction m with
  | nil => simp [mapGet] at h
  | cons hd tl ih =>
      obtain ⟨k', v'⟩ := hd
      by_cases hk : k' = k
      · subst hk
        simp [mapReplace]
      · simp only [mapGet, if_neg hk] at h
        simp only [mapReplace, if_neg hk]
        exact List.mem_cons_of_mem _ (ih h)

theorem mem_mapReplace_of_ne {m : List (String × PlatformRating)} {k : String}
    {v : PlatformRating} {p : String × PlatformRating} (hp : p ∈ m) (hne : p.1 ≠ k) :
    p ∈ mapReplace m k v := by
  induction m with
  | nil => simp at hp
  | cons hd tl ih =>
      obtain ⟨k', v'⟩ := hd
      rcases List.mem_cons.mp hp with rfl | hp'
      · simp only [mapReplace, if_neg hne]
        exact List.mem_cons_self _ _
      · by_cases hk : k' = k
        · simp only [mapReplace, if_pos hk]
          exact List.mem_cons_of_mem _ hp'
        · simp only [mapReplace, if_neg hk]
          exact List.mem_cons_of_mem _ (ih hp')

theorem platformMapStep_of_none {m : List (String × PlatformRating)} {r : PlatformRating}
    (h : mapGet m r.platform = none) :
    platformMapStep m r = m ++ [(r.platform, r)] := by
  unfold platformMapStep
  rw [h]

theorem platformMapStep_of_lt {m : List (String × PlatformRating)} {r ex : PlatformRating}
    (h : mapGet m r.platform = some ex) (hlt : ex.reviewCount < r.reviewCount) :
    platformMapStep m r = mapReplace m r.platform r := by
  unfold platformMapStep
  rw [h]
  exact if_pos hlt

theorem platformMapStep_of_ge {m : List (String × PlatformRating)} {r ex : PlatformRating}
    (h : mapGet m r.platform = some ex) (hlt : ¬ ex.reviewCount < r.reviewCount) :
    platformMapStep m r = m := by
  unfold platformMapStep
  rw [h]
  exact if_neg hlt

theorem invMap_step (m : List (String × PlatformRating)) (seen : List PlatformRating)
    (r : PlatformRating) (h : InvMap m seen) :
    InvMap (platformMapStep m r) (seen ++ [r]) := by
  obtain ⟨hnd, hkey, hmax, hcov, hfirst⟩ := h
  cases hget : mapGet m r.platform with
  | none =>
      rw [platformMapStep_of_none hget]
      have hnotin : ∀ p ∈ m, p.1 ≠ r.platform := (mapGet_eq_none_iff m r.platform).mp hget
      refine ⟨?_, ?_, ?_, ?_, ?_⟩
      · have hk : keysOf (m ++ [(r.platform, r)]) = keysOf m ++ [r.platform] := by
          simp [keysOf]
        rw [hk, List.nodup_append]
        refine ⟨hnd, List.nodup_singleton _, ?_⟩
        intro a ha hb
        simp only [List.mem_singleton] at hb
        subst hb
        obtain ⟨p, hp, hpe⟩ := List.mem_map.mp ha
        exact hnotin p hp hpe
      · intro p hp
        rcases List.mem_append.mp hp with h1 | h2
        · exact hkey p h1
        · simp only [List.mem_singleton] at h2
          subst h2
          rfl
      · intro p hp s hs hsp
        rcases List.mem_append.mp hp with h1 | h2
        · rcases List.mem_append.mp hs with hs1 | hs2
          · exact hmax p h1 s hs1 hsp
          · simp only [List.mem_singleton] at hs2
            subst hs2
            exact absurd hsp.symm (hnotin p h1)
        · simp only [List.mem_singleton] at h2
          subst h2
          rcases List.mem_append.mp hs with hs1 | hs2
          · obtain ⟨q, hq, hqe⟩ := hcov s hs1
            exact absurd (hqe.trans hsp) (hnotin q hq)
          · simp only [List.mem_singleton] at hs2
            subst hs2
            exact le_refl _
      · intro s hs
        rcases List.mem_append.mp hs with hs1 | hs2
        · obtain ⟨q, hq, hqe⟩ := hcov s hs1
          exact ⟨q, List.mem_append_left _ hq, hqe⟩
        · simp only [List.mem_singleton] at hs2
          rw [hs2]
          exact ⟨(r.platform, r), List.mem_append_right _ (by simp), rfl⟩
      · intro p hp
        rcases List.mem_append.mp hp with h1 | h2
        · obtain ⟨l1, l2, hdec, hlt⟩ := hfirst p h1
          exact ⟨l1, l2 ++ [r], by rw [hdec]; simp, hlt⟩
        · simp only [List.mem_singleton] at h2
          subst h2
          refine ⟨seen, [], by simp, ?_⟩
          intro s hs hsp
          obtain ⟨q, hq, hqe⟩ := hcov s hs
          exact absurd (hqe.trans hsp) (hnotin q hq)
  | some ex =>
      have hexmem : (r.platform, ex) ∈ m := mapGet_some_mem hget
      by_cases hlt : ex.reviewCount < r.reviewCount
      · rw [platformMapStep_of_lt hget hlt]
        refine ⟨?_, ?_, ?_, ?_, ?_⟩
        · rw [keysOf_mapReplace]
          exact hnd
        · intro p hp
          rcases mem_mapReplace_of_nodup hnd _ _ hp with rfl | ⟨hpm, _⟩
          · rfl
          · exact hkey p hpm
        · intro p hp s hs hsp
          rcases mem_mapReplace_of_nodup hnd _ _ hp with rfl | ⟨hpm, hpk⟩
          · rcases List.mem_append.mp hs with hs1 | hs2
            · exact le_trans (hmax (r.platform, ex) hexmem s hs1 hsp) (le_of_lt hlt)
            · simp only [List.mem_singleton] at hs2
              subst hs2
              exact le_refl _
          · rcases List.mem_append.mp hs with hs1 | hs2
            · exact hmax p hpm s hs1 hsp
            · simp only [List.mem_singleton] at hs2
              subst hs2
              exact absurd hsp.symm hpk
        · intro s hs
          rcases List.mem_append.mp hs with hs1 | hs2
          · obtain ⟨q, hq, hqe⟩ := hcov s hs1
            by_cases hqk : q.1 = r.platform
            · exact ⟨(r.platform, r), mem_mapReplace_self hget r, by
                rw [← hqk]
                exact hqe⟩
            · exact ⟨q, mem_mapReplace_of_ne hq hqk, hqe⟩
          · simp only [List.mem_singleton] at hs2
            rw [hs2]
            exact ⟨(r.platform, r), mem_mapReplace_self hget r, rfl⟩
        · intro p hp
          rcases mem_mapReplace_of_nodup hnd _ _ hp with rfl | ⟨hpm, hpk⟩
          · refine ⟨seen, [], by simp, ?_⟩
            intro s hs hsp
            exact lt_of_le_of_lt (hmax (r.platform, ex) hexmem s hs hsp) hlt
          · obtain ⟨l1, l2, hdec, hlt2⟩ := hfirst p hpm
            exact ⟨l1, l2 ++ [r], by rw [hdec]; simp, hlt2⟩
      · rw [platformMapStep_of_ge hget hlt]
        refine ⟨hnd, hkey, ?_, ?_, ?_⟩
        · intro p hp s hs hsp
          rcases List.mem_append.mp hs with hs1 | hs2
          · exact hmax p hp s hs1 hsp
          · simp only [List.mem_singleton] at hs2
            subst hs2
            have h2 := mem_mapGet_of_nodup hnd hp
            rw [← hsp, hget] at h2
            have h3 : ex = p.2 := Option.some.inj h2
            rw [← h3]
            exact not_lt.mp hlt
        · intro s hs
          rcases List.mem_append.mp hs with hs1 | hs2
          · exact hcov s hs1
          · simp only [List.mem_singleton] at hs2
            rw [hs2]
            exact ⟨(r.platform, ex), hexmem, rfl⟩
        · intro p hp
          obtain ⟨l1, l2, hdec, hlt2⟩ := hfirst p hp
          exact ⟨l1, l2 ++ [r], by rw [hdec]; simp, hlt2⟩

theorem invMap_fold (ratings : List PlatformRating) :
    ∀ (m : List (String × PlatformRating)) (seen : List PlatformRating),
      InvMap m seen → InvMap (ratings.foldl platformMapStep m) (seen ++ ratings) := by
  induction ratings with
  | nil => intro m seen h; simpa using h
  | cons r rest ih =>
      intro m seen h
      have h1 := invMap_step m seen r h
      have h2 := ih (platformMapStep m r) (seen ++ [r]) h1
      simpa [List.append_assoc] using h2

theorem invMap_empty : InvMap [] [] := by
  refine ⟨List.nodup_nil, ?_, ?_, ?_, ?_⟩ <;> simp [keysOf]

/-- C5 (amended): the deduplication of `getUniquePlatformRatings` keys on the
*exact* platform string (no case normalization): in its output the platform
names are pairwise distinct, every input platform is covered, and every
surviving entry is the earliest observation of its platform group whose review
count is group-maximal — so review-count ties keep the first-listed
observation, regardless of the `verified` flag. -/
theorem dedup_exact_platform_keeps_first_max (ratings : List PlatformRating) :
    ((getUniquePlatformRatings ratings).map (fun r => r.platform)).Nodup ∧
    (∀ s ∈ ratings, ∃ r ∈ getUniquePlatformRatings ratings, r.platform = s.platform) ∧
    (∀ r ∈ getUniquePlatformRatings ratings,
        ∃ l1 l2, ratings = l1 ++ r :: l2 ∧
          (∀ s ∈ l1, s.platform = r.platform → s.reviewCount < r.reviewCount) ∧
          (∀ s ∈ ratings, s.platform = r.platform → s.reviewCount ≤ r.reviewCount)) := by
  have hinv := invMap_fold ratings [] [] invMap_empty
  simp only [List.nil_append] at hinv
  obtain ⟨hnd, hkey, hmax, hcov, hfirst⟩ := hinv
  refine ⟨?_, ?_, ?_⟩
  · unfold getUniquePlatformRatings
    rw [List.map_map]
    have hmaps : (ratings.foldl platformMapStep []).map ((fun r => r.platform) ∘ (fun p => p.2))
        = keysOf (ratings.foldl platformMapStep []) := by
      unfold keysOf
      apply List.map_congr_left
      intro p hp
      exact hkey p hp
    rw [hmaps]
    exact hnd
  · intro s hs
    obtain ⟨p, hp, hpe⟩ := hcov s hs
    refine ⟨p.2, ?_, ?_⟩
    · unfold getUniquePlatformRatings
      exact List.mem_map_of_mem _ hp
    · rw [hkey p hp]
      exact hpe
  · intro r hr
    unfold getUniquePlatformRatings at hr
    obtain ⟨p, hp, hpr⟩ := List.mem_map.mp hr
    obtain ⟨l1, l2, hdec, hlt⟩ := hfirst p hp
    have hplat : r.platform = p.1 := by
      rw [← hpr]
      exact hkey p hp
    refine ⟨l1, l2, by rw [hdec, hpr], ?_, ?_⟩
    · intro s hs hsp
      rw [← hpr]
      exact hlt s hs (hplat ▸ hsp)
    · intro s hs hsp
      rw [← hpr]
      exact hmax p hp s hs (hplat ▸ hsp)

/-- C5, counterexample: (a) two observations whose platform strings differ only
in case produce *two* breakdown entries, so grouping is not case-normalized;
(b) on a review-count tie the first-listed unverified observation survives, not
the verified one. -/
theorem dedup_cex :
    (getUniquePlatformRatings [obsAmazonTitle, obsAmazonUpper]).length = 2 ∧
    getUniquePlatformRatings [obsWalTieFirst, obsWalTieVerified] = [obsWalTieFirst] := by
  constructor
  · decide
  · decide

/-- C5, witness: for review counts 10 and 1000 on the same platform exactly one
entry survives, and the theorem yields that the 10-review observation is
dominated by the surviving 1000-review one. -/
theorem dedup_witness :
    (getUniquePlatformRatings [obsBestBuy10, obsBestBuy1000]).length = 1 ∧
    obsBestBuy10.reviewCount ≤ obsBestBuy1000.reviewCount := by
  constructor
  · decide
  · have h := (dedup_exact_platform_keeps_first_max [obsBestBuy10, obsBestBuy1000]).2.2
    have hmem : obsBestBuy1000 ∈ getUniquePlatformRatings [obsBestBuy10, obsBestBuy1000] := by
      decide
    obtain ⟨l1, l2, hdec, hlt, hle⟩ := h obsBestBuy1000 hmem
    exact hle obsBestBuy10 (by decide) (by decide)

theorem processGo_stop {ε α : Type} (tasks : List (Except ε α)) (b : ℤ) (acc : List α)
    (i : ℤ) (fuel : ℕ) (h : ¬ i < (tasks.length : ℤ)) :
    processGo tasks b acc i fuel = some (Except.ok acc) := by
  unfold processGo
  rw [if_neg h]

theorem processGo_fuel_zero {ε α : Type} (tasks : List (Except ε α)) (b : ℤ)
    (acc : List α) (i : ℤ) (h : i < (tasks.length : ℤ)) :
    processGo tasks b acc i 0 = none := by
  unfold processGo
  rw [if_pos h]

theorem processGo_step_ok {ε α : Type} {tasks : List (Except ε α)} {b : ℤ} {acc : List α}
    {i : ℤ} {fuel : ℕ} {rs : List α} (h : i < (tasks.length : ℤ))
    (hba : promiseAll (jsSlice tasks i (i + b)) = Except.ok rs) :
    processGo tasks b acc i (fuel + 1) = processGo tasks b (acc ++ rs) (i + b) fuel := by
  conv_lhs => unfold processGo
  rw [if_pos h, hba]

theorem processGo_step_err {ε α : Type} {tasks : List (Except ε α)} {b : ℤ} {acc : List α}
    {i : ℤ} {fuel : ℕ} {e : ε} (h : i < (tasks.length : ℤ))
    (hba : promiseAll (jsSlice tasks i (i + b)) = Except.error e) :
    processGo tasks b acc i (fuel + 1) = some (Except.error e) := by
  conv_lhs => unfold processGo
  rw [if_pos h, hba]

theorem promiseAll_map_ok {ε α : Type} (vals : List α) :
    promiseAll (vals.map (Except.ok : α → Except ε α)) = Except.ok vals := by
  induction vals with
  | nil => rfl
  | cons a rest ih =>
      simp only [List.map_cons, promiseAll, ih]

theorem jsSlice_map {ε α : Type} (l : List α) (f : α → Except ε α) (a b : ℤ) :
    jsSlice (l.map f) a b = (jsSlice l a b).map f := by
  unfold jsSlice
  rw [List.length_map, List.map_take, List.map_drop]

theorem jsSlice_nat_chunk {α : Type} (l : List α) (k n : ℕ) (hk : k ≤ l.length) :
    jsSlice l (k : ℤ) ((k : ℤ) + (n : ℤ))
      = (l.drop k).take (min (k + n) l.length - k) := by
  unfold jsSlice jsSliceIdx
  rw [if_neg (by omega), if_neg (by omega)]
  have h1 : ((k : ℤ)).toNat = k := Int.toNat_natCast k
  have h2 : ((k : ℤ) + (n : ℤ)).toNat = k + n := by
    rw [show ((k : ℤ) + (n : ℤ)) = ((k + n : ℕ) : ℤ) by push_cast; ring, Int.toNat_natCast]
  rw [h1, h2, min_eq_left hk]

theorem take_chunk_append_drop {α : Type} (l : List α) (k n : ℕ) :
    (l.drop k).take (min (k + n) l.length - k) ++ l.drop (k + n) = l.drop k := by
  rcases le_or_lt (k + n) l.length with h | h
  · have hmin : min (k + n) l.length - k = n := by omega
    rw [hmin]
    have h2 := List.take_append_drop n (l.drop k)
    rw [List.drop_drop] at h2
    exact h2
  · have hmin : min (k + n) l.length - k = l.length - k := by omega
    rw [hmin, List.drop_eq_nil_of_le (le_of_lt h), List.append_nil]
    exact List.take_of_length_le (by simp)

theorem processGo_map_ok {ε α : Type} (vals : List α) (n : ℕ) (hn : 1 ≤ n) :
    ∀ (fuel k : ℕ) (acc : List α), vals.length - k ≤ fuel →
      processGo (vals.map (Except.ok : α → Except ε α)) (n : ℤ) acc (k : ℤ) fuel
        = some (Except.ok (acc ++ vals.drop k)) := by
  intro fuel
  induction fuel with
  | zero =>
      intro k acc hk
      have hlen : vals.length ≤ k := by omega
      rw [processGo_stop _ _ _ _ _ (by rw [List.length_map]; omega)]
      rw [List.drop_eq_nil_of_le hlen, List.append_nil]
  | succ fuel ih =>
      intro k acc hk
      by_cases hkl : k < vals.length
      · have hlt : (k : ℤ) < ((vals.map (Except.ok : α → Except ε α)).length : ℤ) := by
          rw [List.length_map]
          omega
        have hba : promiseAll (jsSlice (vals.map (Except.ok : α → Except ε α)) (k : ℤ)
            ((k : ℤ) + (n : ℤ)))
            = Except.ok ((vals.drop k).take (min (k + n) vals.length - k)) := by
          rw [jsSlice_map, jsSlice_nat_chunk _ _ _ (le_of_lt hkl), promiseAll_map_ok]
        rw [processGo_step_ok hlt hba]
        rw [show ((k : ℤ) + (n : ℤ)) = ((k + n : ℕ) : ℤ) by push_cast; ring]
        rw [ih (k + n) _ (by omega)]
        rw [List.append_assoc, take_chunk_append_drop]
      · rw [processGo_stop _ _ _ _ _ (by rw [List.length_map]; omega)]
        rw [List.drop_eq_nil_of_le (by omega), List.append_nil]

theorem processInBatches_map_ok {ε α : Type} (vals : List α) (limit : ℤ)
    (hb : 1 ≤ limit) (fuel : ℕ) (hfuel : vals.length ≤ fuel) :
    processInBatches (vals.map (Except.ok : α → Except ε α)) limit fuel
      = some (Except.ok vals) := by
  have hcast : ((limit.toNat : ℕ) : ℤ) = limit := Int.toNat_of_nonneg (by omega)
  have h := processGo_map_ok (ε := ε) vals limit.toNat (by omega) fuel 0 [] (by omega)
  rw [hcast] at h
  unfold processInBatches
  simpa using h

theorem processGo_zero_diverges {ε α : Type} (tasks : List (Except ε α)) (h : tasks ≠ []) :
    ∀ (fuel : ℕ) (acc : List α), processGo tasks 0 acc 0 fuel = none := by
  have hlen : 0 < tasks.length := List.length_pos.mpr h
  intro fuel
  induction fuel with
  | zero =>
      intro acc
      exact processGo_fuel_zero _ _ _ _ (by omega)
  | succ fuel ih =>
      intro acc
      have hslice : jsSlice tasks (0 : ℤ) ((0 : ℤ) + 0) = [] := by
        simp [jsSlice, jsSliceIdx]
      have hba : promiseAll (jsSlice tasks (0 : ℤ) ((0 : ℤ) + 0)) = Except.ok ([] : List α) := by
        rw [hslice]
        rfl
      rw [processGo_step_ok (by omega) hba]
      simpa using ih acc

theorem processGo_neg_diverges {ε α : Type} (vals : List α) (b : ℤ) (hb : b < 0)
    (h : vals ≠ []) : ∀ (fuel : ℕ) (acc : List α) (i : ℤ), i ≤ 0 →
      processGo (vals.map (Except.ok : α → Except ε α)) b acc i fuel = none := by
  have hlen : 0 < vals.length := List.length_pos.mpr h
  intro fuel
  induction fuel with
  | zero =>
      intro acc i hi
      apply processGo_fuel_zero
      rw [List.length_map]
      omega
  | succ fuel ih =>
      intro acc i hi
      have hba : promiseAll (jsSlice (vals.map (Except.ok : α → Except ε α)) i (i + b))
          = Except.ok (jsSlice vals i (i + b)) := by
        rw [jsSlice_map, promiseAll_map_ok]
      rw [processGo_step_ok (by rw [List.length_map]; omega) hba]
      exact ih _ _ (by omega)

theorem processGo_ne_none {ε α : Type} (tasks : List (Except ε α)) (n : ℕ) (hn : 1 ≤ n) :
    ∀ (fuel k : ℕ) (acc : List α), tasks.length - k ≤ fuel →
      processGo tasks (n : ℤ) acc (k : ℤ) fuel ≠ none := by
  intro fuel
  induction fuel with
  | zero =>
      intro k acc hk
      rw [processGo_stop _ _ _ _ _ (by omega)]
      simp
  | succ fuel ih =>
      intro k acc hk
      by_cases hkl : k < tasks.length
      · cases hba : promiseAll (jsSlice tasks (k : ℤ) ((k : ℤ) + (n : ℤ))) with
        | error e =>
            rw [processGo_step_err (by omega) hba]
            simp
        | ok rs =>
            rw [processGo_step_ok (by omega) hba]
            rw [show ((k : ℤ) + (n : ℤ)) = ((k + n : ℕ) : ℤ) by push_cast; ring]
            exact ih (k + n) _ (by omega)
      · rw [processGo_stop _ _ _ _ _ (by omega)]
        simp

/-- C9: for every list of resolving tasks and every `limit ≥ 1`,
`processInBatches` works through consecutive `limit`-sized slices, awaiting
each slice's `Promise.all` before moving on, and settles with every task's
value in the same order as the input tasks (the model is deterministic, so
individual completion timing cannot reorder the output — `Promise.all` keeps
list order by construction). -/
theorem runBatched_preserves_order {ε α : Type} (vals : List α) (limit : ℤ)
    (hb : 1 ≤ limit) (fuel : ℕ) (hfuel : vals.length ≤ fuel) :
    processInBatches (vals.map (Except.ok : α → Except ε α)) limit fuel
      = some (Except.ok vals) :=
  processInBatches_map_ok vals limit hb fuel hfuel

/-- C9, witness: 7 tasks with limit 3 settle with the 7 results in input order. -/
theorem runBatched_preserves_order_witness :
    processInBatches ((List.range 7).map (Except.ok : ℕ → Except String ℕ)) 3 7
      = some (Except.ok (List.range 7)) :=
  runBatched_preserves_order (List.range 7) 3 (by norm_num) 7 (by simp)

/-- C8 (amended): a task that genuinely rejects rejects the whole `Promise.all`
slice and with it the `processInBatches` call — the other tasks' results are
discarded.  What holds instead is that the probe tasks never reject:
`searchAndExtractFromPlatform` catches every internal failure and resolves to
`null`, so a failed probe contributes no observation while the batch and the
aggregation still complete with every other probe's result. -/
theorem failed_probe_contributes_no_observation {ε : Type}
    (bodies : List (Except ε (Option PlatformRating))) (limit : ℤ) (hb : 1 ≤ limit)
    (fuel : ℕ) (hfuel : bodies.length ≤ fuel) :
    processInBatches (bodies.map searchAndExtractFromPlatform) limit fuel
      = some (Except.ok (bodies.map probeOutcome)) := by
  have hmap : bodies.map searchAndExtractFromPlatform
      = (bodies.map probeOutcome).map Except.ok := by
    rw [List.map_map]
    apply List.map_congr_left
    intro body _
    cases body <;> rfl
  rw [hmap]
  exact processInBatches_map_ok (bodies.map probeOutcome) limit hb fuel (by simpa using hfuel)

/-- C8, counterexample: one rejecting task in a batch of three makes the whole
`processInBatches` call reject — the two resolving tasks' results are discarded
instead of being returned. -/
theorem task_rejection_aborts_batch_cex :
    processInBatches [(Except.ok 1 : Except String ℕ), Except.error "boom", Except.ok 3] 3 2
      = some (Except.error "boom") ∧
    processInBatches [(Except.ok 1 : Except String ℕ), Except.error "boom", Except.ok 3] 3 2
      ≠ some (Except.ok [1, 3]) := by
  constructor
  · decide
  · decide

/-- C8, witness: a failing probe body between two succeeding ones resolves to
no observation and the batch still settles with all three outcomes. -/
theorem failed_probe_witness :
    processInBatches ([Except.ok (some obsNineReviews), Except.error "timeout",
        Except.ok none].map searchAndExtractFromPlatform) 3 3
      = some (Except.ok [some obsNineReviews, none, none]) := by
  have h := failed_probe_contributes_no_observation (ε := String)
    [Except.ok (some obsNineReviews), Except.error "timeout", Except.ok none] 3
    (by norm_num) 3 (by simp)
  rw [h]
  rfl

/-- C10 (amended): with `limit ≥ 1` and enough fuel for `tasks.length`
iterations the loop always settles, and for resolving tasks it returns exactly
one result per task; with `limit = 0` and a non-empty task list it never
settles, the chunk index never advancing; with a negative `limit` and a
non-empty list of *resolving* tasks it never settles either — but a rejecting
task inside the first (possibly non-empty) chunk settles the call with a
rejection, so the claimed universal non-termination for negative limits fails
for rejecting tasks. -/
theorem runBatched_termination (vals : List ℕ) (tasks : List (Except String ℕ))
    (limit : ℤ) (fuel : ℕ) :
    (1 ≤ limit → tasks.length ≤ fuel → processInBatches tasks limit fuel ≠ none) ∧
    (1 ≤ limit → vals.length ≤ fuel →
        processInBatches (vals.map (Except.ok : ℕ → Except String ℕ)) limit fuel
          = some (Except.ok vals)) ∧
    (tasks ≠ [] → processInBatches tasks 0 fuel = none) ∧
    (limit < 0 → vals ≠ [] →
        processInBatches (vals.map (Except.ok : ℕ → Except String ℕ)) limit fuel = none) := by
  refine ⟨?_, ?_, ?_, ?_⟩
  · intro hb hfuel
    have hcast : ((limit.toNat : ℕ) : ℤ) = limit := Int.toNat_of_nonneg (by omega)
    unfold processInBatches
    rw [← hcast, show ((0 : ℤ)) = ((0 : ℕ) : ℤ) by norm_num]
    exact processGo_ne_none tasks limit.toNat (by omega) fuel 0 [] (by omega)
  · intro hb hfuel
    exact processInBatches_map_ok vals limit hb fuel hfuel
  · intro hne
    exact processGo_zero_diverges tasks hne fuel []
  · intro hneg hne
    exact processGo_neg_diverges vals limit hneg hne fuel [] 0 (by omega)

/-- C10, counterexample: with the negative limit −1 the first slice
`tasks.slice(0, -1)` is non-empty, and a rejecting task inside it settles the
call after a single iteration — the call does not run forever; likewise with
`limit = 1` a rejecting task settles the call without one result per task. -/
theorem negative_limit_can_terminate_cex :
    processInBatches [(Except.error "boom" : Except String ℕ), Except.ok 2] (-1) 1
      = some (Except.error "boom") ∧
    processInBatches [(Except.error "boom" : Except String ℕ)] 1 1
      = some (Except.error "boom") := by
  constructor
  · decide
  · decide

/-- C10, witness: with `limit = 0` a single-task list never settles, here at
fuel 4. -/
theorem runBatched_termination_witness :
    processInBatches [(Except.ok 5 : Except String ℕ)] 0 4 = none :=
  (runBatched_termination [] [Except.ok 5] 0 4).2.2.1 (by simp)

/-- C7, counterexample: the Fact Normalizer strips only one trailing `#token`
per application, so a title with two trailing tokens normalizes differently
the second time (`"Widget #A1 #B2"` → `"Widget #A1"` → `"Widget"`). -/
theorem normalizer_not_idempotent_cex :
    factNormalizer (factNormalizer "Widget #A1 #B2") ≠ factNormalizer "Widget #A1 #B2" := by
  decide

theorem dropWhile_head?_false {p : Char → Bool} {l : List Char} {c : Char}
    (h : (l.dropWhile p).head? = some c) : p c = false := by
  induction l with
  | nil => simp at h
  | cons a rest ih =>
      rw [List.dropWhile_cons] at h
      by_cases hp : p a
      · rw [if_pos hp] at h
        exact ih h
      · rw [if_neg hp] at h
        simp only [List.head?_cons, Option.some.injEq] at h
        subst h
        exact Bool.eq_false_iff.mpr hp

theorem dropWhile_eq_self_of_head {p : Char → Bool} {l : List Char}
    (h : ∀ c, l.head? = some c → p c = false) : l.dropWhile p = l := by
  cases l with
  | nil => rfl
  | cons a rest =>
      rw [List.dropWhile_cons, if_neg]
      rw [h a rfl]
      simp

theorem jsTrim_eq_self {l : List Char}
    (h1 : ∀ c, l.head? = some c → jsIsWs c = false)
    (h2 : ∀ c, l.getLast? = some c → jsIsWs c = false) : jsTrimL l = l := by
  unfold jsTrimL
  rw [dropWhile_eq_self_of_head h1]
  rw [dropWhile_eq_self_of_head (by
    intro c hc
    rw [List.head?_reverse] at hc
    exact h2 c hc)]
  exact List.reverse_reverse l

theorem jsTrim_getLast_not_ws {l : List Char} {c : Char}
    (h : (jsTrimL l).getLast? = some c) : jsIsWs c = false := by
  unfold jsTrimL at h
  rw [List.getLast?_reverse] at h
  exact dropWhile_head?_false h

theorem jsTrim_head_not_ws {l : List Char} {c : Char}
    (h : (jsTrimL l).head? = some c) : jsIsWs c = false := by
  unfold jsTrimL at h
  rw [List.head?_reverse] at h
  obtain ⟨t, ht⟩ := List.dropWhile_suffix
    (l := (l.dropWhile (fun c => jsIsWs c)).reverse) (fun c => jsIsWs c)
  have h2 : ((l.dropWhile (fun c => jsIsWs c)).reverse).getLast? = some c := by
    rw [← ht, List.getLast?_append, h]
    rfl
  rw [List.getLast?_reverse] at h2
  exact dropWhile_head?_false h2

theorem jsTrim_idem (l : List Char) : jsTrimL (jsTrimL l) = jsTrimL l :=
  jsTrim_eq_self (fun _ h => jsTrim_head_not_ws h) (fun _ h => jsTrim_getLast_not_ws h)

theorem mem_jsTrim {l : List Char} {c : Char} (h : c ∈ jsTrimL l) : c ∈ l := by
  unfold jsTrimL at h
  rw [List.mem_reverse] at h
  have h2 := (List.dropWhile_sublist _).subset h
  rw [List.mem_reverse] at h2
  exact (List.dropWhile_sublist _).subset h2

theorem priceMatchLen_none {l : List Char} (h : ('$' : Char) ∉ l) :
    priceMatchLen l = none := by
  unfold priceMatchLen
  dsimp only
  split
  · rename_i rest heq
    exfalso
    apply h
    apply (List.drop_subset _ l)
    rw [heq]
    exact List.mem_cons_self _ _
  · rfl

theorem stripPricesGo_no_dollar :
    ∀ (fuel : ℕ) (l : List Char), ('$' : Char) ∉ l → stripPricesGo fuel l = l := by
  intro fuel
  induction fuel with
  | zero => intro l _; rfl
  | succ fuel ih =>
      intro l h
      cases l with
      | nil => rfl
      | cons c cs =>
          unfold stripPricesGo
          rw [priceMatchLen_none h]
          rw [ih cs (fun hc => h (List.mem_cons_of_mem _ hc))]

theorem stripPrices_no_dollar {l : List Char} (h : ('$' : Char) ∉ l) :
    stripPrices l = l :=
  stripPricesGo_no_dollar l.length l h

theorem discountMatchLen_none {l : List Char} (h : ('(' : Char) ∉ l) :
    discountMatchLen l = none := by
  unfold discountMatchLen
  dsimp only
  split
  · rename_i rest heq
    exfalso
    apply h
    apply (List.drop_subset _ l)
    rw [heq]
    exact List.mem_cons_self _ _
  · rfl

theorem stripDiscount_no_paren : ∀ {l : List Char}, ('(' : Char) ∉ l →
    stripDiscount l = l := by
  intro l
  induction l with
  | nil => intro _; rfl
  | cons c cs ih =>
      intro h
      unfold stripDiscount
      rw [discountMatchLen_none h]
      rw [ih (fun hc => h (List.mem_cons_of_mem _ hc))]

theorem stripTrailingHash_no_hash {l : List Char} (h : ('#' : Char) ∉ l) :
    stripTrailingHash l = l := by
  unfold stripTrailingHash
  dsimp only
  split
  · rfl
  · split
    · rename_i rest heq
      exfalso
      apply h
      rw [← List.mem_reverse]
      apply (List.drop_subset _ l.reverse)
      rw [heq]
      exact List.mem_cons_self _ _
    · rfl

theorem stripTrailingParen_no_paren {l : List Char} (h : ('(' : Char) ∉ l) :
    stripTrailingParen l = l := by
  unfold stripTrailingParen
  dsimp only
  split
  · rename_i r1 heq
    split
    · rfl
    · split
      · rename_i rest heq2
        exfalso
        apply h
        rw [← List.mem_reverse]
        have hmem : ('(' : Char) ∈ r1.drop ((r1.takeWhile (fun c => jsIsWordChar c)).length) := by
          rw [heq2]
          exact List.mem_cons_self _ _
        have hr1 : ('(' : Char) ∈ r1 := (List.drop_subset _ r1) hmem
        rw [heq]
        exact List.mem_cons_of_mem _ hr1
      · rfl
  · rfl

theorem collapseWs_singleton (c : Char) :
    collapseWs [c] = if jsIsWs c then [' '] else [c] := rfl

theorem collapseWs_cons2 (c1 c2 : Char) (rest : List Char) :
    collapseWs (c1 :: c2 :: rest) =
      if jsIsWs c1 && jsIsWs c2 then collapseWs (c2 :: rest)
      else if jsIsWs c1 then ' ' :: collapseWs (c2 :: rest)
      else c1 :: collapseWs (c2 :: rest) := rfl

theorem mem_collapseWs : ∀ {l : List Char} {c : Char}, c ∈ collapseWs l →
    (c ∈ l ∧ jsIsWs c = false) ∨ c = ' ' := by
  intro l
  induction l with
  | nil => intro c h; simp [collapseWs] at h
  | cons a tail ih =>
      intro c h
      cases tail with
      | nil =>
          rw [collapseWs_singleton] at h
          by_cases hw : jsIsWs a = true
          · rw [if_pos hw] at h
            simp only [List.mem_singleton] at h
            exact Or.inr h
          · rw [if_neg hw] at h
            simp only [List.mem_singleton] at h
            subst h
            exact Or.inl ⟨List.mem_cons_self _ _, Bool.eq_false_iff.mpr hw⟩
      | cons b rest =>
          rw [collapseWs_cons2] at h
          by_cases h12 : (jsIsWs a && jsIsWs b) = true
          · rw [if_pos h12] at h
            rcases ih h with ⟨hm, hws⟩ | he
            · exact Or.inl ⟨List.mem_cons_of_mem _ hm, hws⟩
            · exact Or.inr he
          · rw [if_neg h12] at h
            by_cases h1w : jsIsWs a = true
            · rw [if_pos h1w] at h
              rcases List.mem_cons.mp h with rfl | h'
              · exact Or.inr rfl
              · rcases ih h' with ⟨hm, hws⟩ | he
                · exact Or.inl ⟨List.mem_cons_of_mem _ hm, hws⟩
                · exact Or.inr he
            · rw [if_neg h1w] at h
              rcases List.mem_cons.mp h with rfl | h'
              · exact Or.inl ⟨List.mem_cons_self _ _, Bool.eq_false_iff.mpr h1w⟩
              · rcases ih h' with ⟨hm, hws⟩ | he
                · exact Or.inl ⟨List.mem_cons_of_mem _ hm, hws⟩
                · exact Or.inr he

theorem collapseWs_head_of_not_ws {x : Char} {xs : List Char} (h : jsIsWs x = false) :
    (collapseWs (x :: xs)).head? = some x := by
  cases xs with
  | nil =>
      rw [collapseWs_singleton, if_neg (by simp [h])]
      rfl
  | cons b rest =>
      rw [collapseWs_cons2, if_neg (by simp [h]), if_neg (by simp [h])]
      rfl

theorem collapseWs_wsFlat (l : List Char) : wsFlat (collapseWs l) := by
  intro c hc hw
  rcases mem_collapseWs hc with ⟨_, hws⟩ | he
  · rw [hws] at hw
    exact absurd hw (by simp)
  · exact he

theorem collapseWs_noWsPair : ∀ (l : List Char), noWsPair (collapseWs l) := by
  intro l
  induction l with
  | nil => simp [collapseWs, noWsPair]
  | cons a tail ih =>
      cases tail with
      | nil =>
          rw [collapseWs_singleton]
          by_cases hw : jsIsWs a = true
          · rw [if_pos hw]
            exact List.chain'_singleton _
          · rw [if_neg hw]
            exact List.chain'_singleton _
      | cons b rest =>
          rw [collapseWs_cons2]
          by_cases h12 : (jsIsWs a && jsIsWs b) = true
          · rw [if_pos h12]
            exact ih
          · rw [if_neg h12]
            by_cases h1w : jsIsWs a = true
            · rw [if_pos h1w]
              have hb : jsIsWs b = false := by
                rcases Bool.eq_false_iff.mpr h12 |>.symm with _
                cases hbb : jsIsWs b
                · rfl
                · exfalso
                  exact h12 (by rw [h1w, hbb]; rfl)
              unfold noWsPair
              rw [List.chain'_cons']
              refine ⟨?_, ih⟩
              intro y hy
              rw [collapseWs_head_of_not_ws hb] at hy
              simp only [Option.mem_def, Option.some.injEq] at hy
              subst hy
              intro hcon
              rw [hb] at hcon
              exact absurd hcon.2 (by simp)
            · rw [if_neg h1w]
              unfold noWsPair
              rw [List.chain'_cons']
              refine ⟨?_, ih⟩
              intro y _
              intro hcon
              exact h1w hcon.1

theorem collapseWs_eq_self : ∀ {l : List Char}, wsFlat l → noWsPair l →
    collapseWs l = l := by
  intro l
  induction l with
  | nil => intro _ _; rfl
  | cons a tail ih =>
      intro hf hp
      cases tail with
      | nil =>
          rw [collapseWs_singleton]
          by_cases hw : jsIsWs a = true
          · rw [if_pos hw, hf a (List.mem_cons_self _ _) hw]
          · rw [if_neg hw]
      | cons b rest =>
          have hpair : ¬(jsIsWs a = true ∧ jsIsWs b = true) := by
            have := (List.chain'_cons.mp hp).1
            exact this
          have h12 : ¬((jsIsWs a && jsIsWs b) = true) := by
            intro hcon
            rcases Bool.and_eq_true_iff.mp hcon with ⟨x, y⟩
            exact hpair ⟨x, y⟩
          have htailf : wsFlat (b :: rest) := fun c hc hw =>
            hf c (List.mem_cons_of_mem _ hc) hw
          have htailp : noWsPair (b :: rest) := (List.chain'_cons.mp hp).2
          rw [collapseWs_cons2, if_neg h12]
          by_cases hw : jsIsWs a = true
          · rw [if_pos hw, ih htailf htailp, hf a (List.mem_cons_self _ _) hw]
          · rw [if_neg hw, ih htailf htailp]

theorem noWsPair_within {l l' : List Char} (h : noWsPair l) (h' : l' <:+: l) :
    noWsPair l' :=
  List.Chain'.infix h h'

theorem noWsPair_reverse {l : List Char} (h : noWsPair l) : noWsPair l.reverse := by
  unfold noWsPair at h ⊢
  rw [List.chain'_reverse]
  exact h.imp (fun a b hab => by
    intro hcon
    exact hab ⟨hcon.2, hcon.1⟩)

theorem jsTrim_noWsPair {l : List Char} (h : noWsPair l) : noWsPair (jsTrimL l) := by
  unfold jsTrimL
  apply noWsPair_reverse
  apply noWsPair_within _ (List.dropWhile_suffix _).isInfix
  apply noWsPair_reverse
  exact noWsPair_within h (List.dropWhile_suffix _).isInfix

theorem jsTrim_wsFlat {l : List Char} (h : wsFlat l) : wsFlat (jsTrimL l) :=
  fun c hc hw => h c (mem_jsTrim hc) hw

theorem head?_take_pos {α : Type} {l : List α} {n : ℕ} (hn : 0 < n) :
    (l.take n).head? = l.head? := by
  cases l with
  | nil => simp
  | cons a as =>
      cases n with
      | zero => omega
      | succ m => simp

theorem factNormalizerL_trigger_free {l : List Char}
    (h1 : ('$' : Char) ∉ l) (h2 : ('#' : Char) ∉ l) (h3 : ('(' : Char) ∉ l) :
    factNormalizerL l =
      if 150 < (jsTrimL (collapseWs l)).length then
        (jsTrimL (collapseWs l)).take 150 ++ ['.', '.', '.']
      else jsTrimL (collapseWs l) := by
  have hmem : ∀ c ∈ jsTrimL (collapseWs l), (c ∈ l ∧ jsIsWs c = false) ∨ c = ' ' :=
    fun c hc => mem_collapseWs (mem_jsTrim hc)
  have nd : ('$' : Char) ∉ jsTrimL (collapseWs l) := by
    intro hc
    rcases hmem _ hc with ⟨hm, _⟩ | he
    · exact h1 hm
    · exact absurd he (by decide)
  have nh : ('#' : Char) ∉ jsTrimL (collapseWs l) := by
    intro hc
    rcases hmem _ hc with ⟨hm, _⟩ | he
    · exact h2 hm
    · exact absurd he (by decide)
  have np : ('(' : Char) ∉ jsTrimL (collapseWs l) := by
    intro hc
    rcases hmem _ hc with ⟨hm, _⟩ | he
    · exact h3 hm
    · exact absurd he (by decide)
  unfold factNormalizerL
  dsimp only
  rw [stripPrices_no_dollar nd, jsTrim_idem, stripDiscount_no_paren np, jsTrim_idem,
    stripTrailingHash_no_hash nh, jsTrim_idem, stripTrailingParen_no_paren np, jsTrim_idem]

theorem factNormalizerL_idem {l : List Char}
    (h1 : ('$' : Char) ∉ l) (h2 : ('#' : Char) ∉ l) (h3 : ('(' : Char) ∉ l) :
    factNormalizerL (factNormalizerL l) = factNormalizerL l := by
  have key := factNormalizerL_trigger_free h1 h2 h3
  have hmem : ∀ c ∈ jsTrimL (collapseWs l), (c ∈ l ∧ jsIsWs c = false) ∨ c = ' ' :=
    fun c hc => mem_collapseWs (mem_jsTrim hc)
  have hflat : wsFlat (jsTrimL (collapseWs l)) := jsTrim_wsFlat (collapseWs_wsFlat l)
  have hpair : noWsPair (jsTrimL (collapseWs l)) := jsTrim_noWsPair (collapseWs_noWsPair l)
  have htrig : ∀ c ∈ jsTrimL (collapseWs l), c ≠ '$' ∧ c ≠ '#' ∧ c ≠ '(' := by
    intro c hc
    rcases hmem c hc with ⟨hm, _⟩ | he
    · exact ⟨fun h => h1 (h ▸ hm), fun h => h2 (h ▸ hm), fun h => h3 (h ▸ hm)⟩
    · subst he
      exact ⟨by decide, by decide, by decide⟩
  by_cases hlen : 150 < (jsTrimL (collapseWs l)).length
  · rw [key, if_pos hlen]
    have humem : ∀ c ∈ (jsTrimL (collapseWs l)).take 150 ++ ['.', '.', '.'],
        c ∈ jsTrimL (collapseWs l) ∨ c = '.' := by
      intro c hc
      rcases List.mem_append.mp hc with h | h
      · exact Or.inl ((List.take_subset _ _) h)
      · have : c = '.' := by simpa using h
        exact Or.inr this
    have hud : ('$' : Char) ∉ (jsTrimL (collapseWs l)).take 150 ++ ['.', '.', '.'] := by
      intro hc
      rcases humem _ hc with h | h
      · exact (htrig _ h).1 rfl
      · exact absurd h (by decide)
    have huh : ('#' : Char) ∉ (jsTrimL (collapseWs l)).take 150 ++ ['.', '.', '.'] := by
      intro hc
      rcases humem _ hc with h | h
      · exact (htrig _ h).2.1 rfl
      · exact absurd h (by decide)
    have hup : ('(' : Char) ∉ (jsTrimL (collapseWs l)).take 150 ++ ['.', '.', '.'] := by
      intro hc
      rcases humem _ hc with h | h
      · exact (htrig _ h).2.2 rfl
      · exact absurd h (by decide)
    rw [factNormalizerL_trigger_free hud huh hup]
    have hflatu : wsFlat ((jsTrimL (collapseWs l)).take 150 ++ ['.', '.', '.']) := by
      intro c hc hw
      rcases humem c hc with h | h
      · exact hflat c h hw
      · subst h
        exact absurd hw (by decide)
    have hpairu : noWsPair ((jsTrimL (collapseWs l)).take 150 ++ ['.', '.', '.']) := by
      unfold noWsPair
      rw [List.chain'_append]
      refine ⟨noWsPair_within hpair (List.take_prefix _ _).isInfix, ?_, ?_⟩
      · simp [List.chain'_cons]
        decide
      · intro x _ y hy
        simp only [List.head?_cons, Option.mem_def, Option.some.injEq] at hy
        subst hy
        intro hcon
        exact absurd hcon.2 (by decide)
    have hcu : collapseWs ((jsTrimL (collapseWs l)).take 150 ++ ['.', '.', '.'])
        = (jsTrimL (collapseWs l)).take 150 ++ ['.', '.', '.'] :=
      collapseWs_eq_self hflatu hpairu
    have htu : jsTrimL ((jsTrimL (collapseWs l)).take 150 ++ ['.', '.', '.'])
        = (jsTrimL (collapseWs l)).take 150 ++ ['.', '.', '.'] := by
      apply jsTrim_eq_self
      · intro c hc
        rw [List.head?_append_of_ne_nil] at hc
        · rw [head?_take_pos (by norm_num)] at hc
          exact jsTrim_head_not_ws hc
        · intro hnil
          rw [← List.length_eq_zero, List.length_take] at hnil
          omega
      · intro c hc
        rw [List.getLast?_append] at hc
        simp at hc
        subst hc
        decide
    rw [hcu, htu]
    have hulen : ((jsTrimL (collapseWs l)).take 150 ++ ['.', '.', '.']).length = 153 := by
      rw [List.length_append, List.length_take]
      simp
      omega
    rw [if_pos (by rw [hulen]; norm_num)]
    have hlen150 : ((jsTrimL (collapseWs l)).take 150).length = 150 := by
      rw [List.length_take]
      omega
    rw [List.take_left' hlen150]
  · rw [key, if_neg hlen]
    rw [factNormalizerL_trigger_free (fun hc => (htrig _ hc).1 rfl)
      (fun hc => (htrig _ hc).2.1 rfl) (fun hc => (htrig _ hc).2.2 rfl)]
    rw [collapseWs_eq_self hflat hpair, jsTrim_idem, if_neg hlen]

/-- C7 (amended): the Fact Normalizer is not idempotent in general — each
application strips only one trailing `#token` or parenthesised token and only
the first discount annotation, and the price stripper can leave a double space
— but it is idempotent on every title containing no `'$'`, no `'#'` and no
`'('` (in particular the truncation step never double-truncates). -/
theorem normalizer_idempotent_on_trigger_free (s : String)
    (h1 : ('$' : Char) ∉ s.data) (h2 : ('#' : Char) ∉ s.data) (h3 : ('(' : Char) ∉ s.data) :
    factNormalizer (factNormalizer s) = factNormalizer s := by
  have h := factNormalizerL_idem h1 h2 h3
  simp only [factNormalizer]
  generalize hX : factNormalizerL s.data = X at h ⊢
  rw [h]

/-- C7, witness: a plain product title without price, hash or parenthesis
characters normalizes to a fixed point. -/
theorem normalizer_idem_witness :
    factNormalizer (factNormalizer "Sony WH-1000XM4 Wireless Noise Canceling Headphones")
      = factNormalizer "Sony WH-1000XM4 Wireless Noise Canceling Headphones" :=
  normalizer_idempotent_on_trigger_free _ (by decide) (by decide) (by decide)

theorem findSome?_exists_of_mem {α β : Type} {l : List α} {f : α → Option β} {a : α} {b : β}
    (ha : a ∈ l) (hf : f a = some b) : ∃ c, l.findSome? f = some c := by
  induction l with
  | nil => simp at ha
  | cons x xs ih =>
      rw [List.findSome?_cons]
      cases hx : f x with
      | some c => exact ⟨c, rfl⟩
      | none =>
          rcases List.mem_cons.mp ha with h | h'
          · rw [h, hx] at hf
            simp at hf
          · exact ih h'

theorem findSome?_mem_of_eq_some {α β : Type} {l : List α} {f : α → Option β} {b : β}
    (w : l.findSome? f = some b) : ∃ a, a ∈ l ∧ f a = some b := by
  induction l with
  | nil => simp [List.findSome?] at w
  | cons x xs ih =>
      rw [List.findSome?_cons] at w
      cases hx : f x with
      | some c =>
          rw [hx] at w
          exact ⟨x, List.mem_cons_self x xs, hx.trans w⟩
      | none =>
          rw [hx] at w
          obtain ⟨a, ha, hfa⟩ := ih w
          exact ⟨a, List.mem_cons_of_mem x ha, hfa⟩

theorem orElse_eq_some {α : Type} {x : Option α} {f : Unit → Option α} {b : α}
    (h : x.orElse f = some b) : x = some b ∨ f () = some b := by
  cases x with
  | some a => left; simp only [Option.orElse] at h; exact h
  | none => right; simp only [Option.orElse] at h; exact h

theorem mem_dropWhile_of_neg {p : Char → Bool} {l : List Char} {c : Char}
    (hc : c ∈ l) (hp : p c = false) : c ∈ l.dropWhile p := by
  induction l with
  | nil => simp at hc
  | cons a rest ih =>
      rw [List.dropWhile_cons]
      by_cases ha : p a = true
      · rw [if_pos ha]
        rcases List.mem_cons.mp hc with h | h'
        · subst h
          exact absurd ha (by simp [hp])
        · exact ih h'
      · rw [if_neg ha]
        exact hc

theorem jsTrimL_ne_nil {l : List Char} {c : Char} (hc : c ∈ l) (hp : jsIsWs c = false) :
    jsTrimL l ≠ [] := by
  unfold jsTrimL
  intro h
  rw [List.reverse_eq_nil_iff] at h
  have h1 : c ∈ l.dropWhile (fun c => jsIsWs c) := mem_dropWhile_of_neg hc hp
  have h2 : c ∈ (l.dropWhile (fun c => jsIsWs c)).reverse := List.mem_reverse.mpr h1
  have h3 := mem_dropWhile_of_neg h2 hp
  rw [h] at h3
  simp at h3

theorem str_ne_empty_of_data_ne {t : String} (h : t.data ≠ []) : t ≠ "" := by
  intro he
  rw [he] at h
  exact h rfl

theorem str_ne_empty_of_not_isEmpty {t : String} (h : t.data.isEmpty = false) : t ≠ "" := by
  refine str_ne_empty_of_data_ne ?_
  intro hd
  rw [hd] at h
  simp at h

theorem str_ne_empty_of_length_pos {t : String} (h : 0 < t.length) : t ≠ "" := by
  refine str_ne_empty_of_data_ne ?_
  intro hd
  have h0 : t.length = 0 := by
    show t.data.length = 0
    rw [hd]
    rfl
  omega

theorem truthyStr_some {s : Option String} {t : String} (h1 : truthyStr s = true)
    (h2 : s = some t) : t ≠ "" := by
  rw [h2] at h1
  have h3 : t.data.isEmpty = false := by
    cases hb : t.data.isEmpty
    · rfl
    · rw [show truthyStr (some t) = !t.data.isEmpty from rfl, hb] at h1
      simp at h1
  exact str_ne_empty_of_not_isEmpty h3

theorem graphTitle_ne_empty {g : Option (List SDGraphItem)} {t : String}
    (h : graphTitle g = some t) : t ≠ "" := by
  cases g with
  | none => simp [graphTitle] at h
  | some items =>
      simp only [graphTitle] at h
      obtain ⟨it, -, hit⟩ := findSome?_mem_of_eq_some h
      by_cases hcond : (it.atType == some "Product" && truthyStr it.name) = true
      · rw [if_pos hcond] at hit
        rw [Bool.and_eq_true] at hcond
        exact truthyStr_some hcond.2 hit
      · rw [if_neg hcond] at hit
        simp at hit

theorem clientBlockTitle_ne_empty {b : SDBlock} {t : String}
    (h : clientBlockTitle b = some t) : t ≠ "" := by
  unfold clientBlockTitle at h
  by_cases hcond : (b.atType == some "Product" && truthyStr b.name) = true
  · rw [if_pos hcond] at h
    rw [Bool.and_eq_true] at hcond
    exact truthyStr_some hcond.2 h
  · rw [if_neg hcond] at h
    exact graphTitle_ne_empty h

theorem breadcrumbTitle_ne_empty {bn : Option (List (Option String))} {t : String}
    (h : breadcrumbTitle bn = some t) : t ≠ "" := by
  cases bn with
  | none => simp [breadcrumbTitle] at h
  | some items =>
      simp only [breadcrumbTitle] at h
      cases hl : items.getLast? with
      | none => rw [hl] at h; simp at h
      | some lastName =>
          rw [hl] at h
          have h2 : (if truthyStr lastName then lastName else none) = some t := h
          by_cases hc : truthyStr lastName = true
          · rw [if_pos hc] at h2
            exact truthyStr_some hc h2
          · rw [if_neg hc] at h2
            simp at h2

theorem serverBlockTitle_ne_empty {b : SDBlock} {t : String}
    (h : serverBlockTitle b = some t) : t ≠ "" := by
  unfold serverBlockTitle at h
  by_cases hcond : (b.atType == some "Product" && truthyStr b.name) = true
  · rw [if_pos hcond] at h
    rw [Bool.and_eq_true] at hcond
    exact truthyStr_some hcond.2 h
  · rw [if_neg hcond] at h
    rcases orElse_eq_some h with h1 | h1
    · by_cases hbc : (b.atType == some "BreadcrumbList") = true
      · rw [if_pos hbc] at h1
        exact breadcrumbTitle_ne_empty h1
      · rw [if_neg hbc] at h1
        simp at h1
    · rcases orElse_eq_some h1 with h2 | h2
      · exact graphTitle_ne_empty h2
      · by_cases hc : (truthyStr b.name && b.hasOffersPriceOrSku) = true
        · rw [if_pos hc] at h2
          rw [Bool.and_eq_true] at hc
          exact truthyStr_some hc.1 h2
        · rw [if_neg hc] at h2
          simp at h2

theorem extractStructuredData_ne_empty {p : Page} {t : String}
    (h : extractStructuredData p = some t) : t ≠ "" := by
  unfold extractStructuredData at h
  obtain ⟨ob, -, hob⟩ := findSome?_mem_of_eq_some h
  cases ob with
  | none => simp at hob
  | some b => exact clientBlockTitle_ne_empty hob

theorem metaSepAt_false_of_head {a : Char} {as : List Char} (ha : jsIsWs a = false) :
    metaSepAt (a :: as) = false := by
  cases as with
  | nil => rfl
  | cons b bs =>
      cases bs with
      | nil => rfl
      | cons c cs => simp [metaSepAt, ha]

theorem metaSplitFirst_head {a : Char} {as : List Char} (ha : jsIsWs a = false) :
    metaSplitFirst (a :: as) = a :: metaSplitFirst as := by
  simp [metaSplitFirst, metaSepAt_false_of_head ha]

theorem metaSplit_trim_ne_empty {s : String}
    (h3 : 5 < (String.mk (metaSplitFirst (jsTrimS s).data)).length) :
    jsTrimS (String.mk (metaSplitFirst (jsTrimS s).data)) ≠ "" := by
  cases hLc : (jsTrimS s).data with
  | nil =>
      rw [hLc] at h3
      exact absurd h3 (by decide)
  | cons a as =>
      have ha : jsIsWs a = false := by
        apply jsTrim_head_not_ws (l := s.data)
        rw [show jsTrimL s.data = (jsTrimS s).data from rfl, hLc]
        rfl
      apply str_ne_empty_of_data_ne
      show jsTrimL (metaSplitFirst (a :: as)) ≠ []
      rw [metaSplitFirst_head ha]
      exact jsTrimL_ne_nil (List.mem_cons_self a _) ha

theorem metaTagTitle_ne_empty {raw t : String} (h : metaTagTitle raw = some t) : t ≠ "" := by
  unfold metaTagTitle at h
  by_cases h1 : (5 < (jsTrimS raw).length && !hasSub (jsTrimS raw) " - " &&
      !hasSub (jsTrimS raw) " | ") = true
  · rw [if_pos h1] at h
    obtain rfl := Option.some.inj h
    rw [Bool.and_eq_true, Bool.and_eq_true] at h1
    have hl : 5 < (jsTrimS raw).length := of_decide_eq_true h1.1.1
    exact str_ne_empty_of_length_pos (by omega)
  · rw [if_neg h1] at h
    by_cases h2 : (hasSub (jsTrimS raw) " - " || hasSub (jsTrimS raw) " | ") = true
    · rw [if_pos h2] at h
      by_cases h3 : 5 < (String.mk (metaSplitFirst (jsTrimS raw).data)).length
      · rw [if_pos h3] at h
        obtain rfl := Option.some.inj h
        exact metaSplit_trim_ne_empty h3
      · rw [if_neg h3] at h
        simp at h
    · rw [if_neg h2] at h
      simp at h

theorem extractFromMetaTags_ne_empty {p : Page} {t : String}
    (h : extractFromMetaTags p = some t) : t ≠ "" := by
  unfold extractFromMetaTags at h
  obtain ⟨sel, -, hsel⟩ := findSome?_mem_of_eq_some h
  simp only [Option.bind_eq_some] at hsel
  obtain ⟨raw, -, hraw⟩ := hsel
  by_cases he : raw.data.isEmpty = true
  · rw [if_pos he] at hraw
    simp at hraw
  · rw [if_neg he] at hraw
    exact metaTagTitle_ne_empty hraw

theorem extractFromCommonSelectors_ne_empty {p : Page} {r : String × String}
    (h : extractFromCommonSelectors p = some r) : r.1 ≠ "" := by
  unfold extractFromCommonSelectors at h
  rcases orElse_eq_some h with h1 | h1
  · obtain ⟨sel, -, hsel⟩ := findSome?_mem_of_eq_some h1
    simp only [Option.bind_eq_some] at hsel
    obtain ⟨raw, -, hraw⟩ := hsel
    by_cases he : raw.data.isEmpty = true
    · rw [if_pos he] at hraw
      simp at hraw
    · rw [if_neg he] at hraw
      by_cases hL : (5 < (jsTrimS raw).length && (jsTrimS raw).length < 250) = true
      · rw [if_pos hL] at hraw
        obtain rfl := Option.some.inj hraw
        rw [Bool.and_eq_true] at hL
        have h5 : 5 < (jsTrimS raw).length := of_decide_eq_true hL.1
        have hne : jsTrimS raw ≠ "" := str_ne_empty_of_length_pos (by omega)
        exact hne
      · rw [if_neg hL] at hraw
        simp at hraw
  · obtain ⟨t0, -, ht0⟩ := findSome?_mem_of_eq_some h1
    by_cases he : t0.data.isEmpty = true
    · rw [if_pos he] at ht0
      simp at ht0
    · rw [if_neg he] at ht0
      by_cases hL : (10 < (jsTrimS t0).length && (jsTrimS t0).length < 200 &&
          !hasSub (jsTrimS t0) "Shopping Cart" && !hasSub (jsTrimS t0) "Checkout" &&
          !hasSub (jsTrimS t0) "Login" && !hasSub (jsTrimS t0) "Sign in") = true
      · rw [if_pos hL] at ht0
        obtain rfl := Option.some.inj ht0
        rw [Bool.and_eq_true, Bool.and_eq_true, Bool.and_eq_true, Bool.and_eq_true,
          Bool.and_eq_true] at hL
        have h10 : 10 < (jsTrimS t0).length := of_decide_eq_true hL.1.1.1.1.1
        have hne : jsTrimS t0 ≠ "" := str_ne_empty_of_length_pos (by omega)
        exact hne
      · rw [if_neg hL] at ht0
        simp at ht0

theorem cleanPageTitle_ne_empty {s t : String} (h : cleanPageTitle s = some t) : t ≠ "" := by
  unfold cleanPageTitle at h
  by_cases hc : (5 < (pageTitleCore s).length && (pageTitleCore s).length < 200) = true
  · rw [if_pos hc] at h
    obtain rfl := Option.some.inj h
    rw [Bool.and_eq_true] at hc
    have h5 : 5 < (pageTitleCore s).length := of_decide_eq_true hc.1
    exact str_ne_empty_of_length_pos (by omega)
  · rw [if_neg hc] at h
    simp at h

theorem extractFromPageTitle_ne_empty {p : Page} {t : String}
    (h : extractFromPageTitle p = some t) : t ≠ "" := by
  unfold extractFromPageTitle at h
  by_cases hc : (p.title.data.isEmpty || p.title.length < 5 : Bool) = true
  · rw [if_pos hc] at h
    simp at h
  · rw [if_neg hc] at h
    exact cleanPageTitle_ne_empty h

/-- C6: the client cascade returns absent when every strategy fails (in
particular when the page title is shorter than five characters), and every
detected product carries a non-empty title; the server cascade however never
returns absent — on the same all-fail page it produces the placeholder
`"Unknown Product"`. -/
theorem absence_and_nonempty_titles (p : Page) (source : String) :
    (extractStructuredData p = none → extractFromMetaTags p = none →
      extractFromCommonSelectors p = none → p.title.length < 5 →
      detectProduct p = none) ∧
    (∀ t, detectProduct p = some t → t ≠ "") ∧
    (serverStructuredScan p.structuredBlocks = none → serverMetaScan p = none →
      serverSelectorScan p = none → serverH1Scan p = none →
      (jsTrimS p.title).length < 5 →
      serverExtractTitle source p = "Unknown Product") := by
  refine ⟨?_, ?_, ?_⟩
  · intro h1 h2 h3 h4
    unfold detectProduct
    rw [h1, h2, h3]
    unfold extractFromPageTitle
    rw [if_pos (by simp [h4])]
  · intro t h
    unfold detectProduct at h
    cases h1 : extractStructuredData p with
    | some t1 =>
        rw [h1] at h
        have h' : some t1 = some t := h
        obtain rfl := Option.some.inj h'
        exact extractStructuredData_ne_empty h1
    | none =>
        rw [h1] at h
        cases h2 : extractFromMetaTags p with
        | some t2 =>
            rw [h2] at h
            have h' : some t2 = some t := h
            obtain rfl := Option.some.inj h'
            exact extractFromMetaTags_ne_empty h2
        | none =>
            rw [h2] at h
            cases h3 : extractFromCommonSelectors p with
            | some r =>
                rw [h3] at h
                have h' : some r.1 = some t := h
                obtain rfl := Option.some.inj h'
                exact extractFromCommonSelectors_ne_empty h3
            | none =>
                rw [h3] at h
                have h' : extractFromPageTitle p = some t := h
                exact extractFromPageTitle_ne_empty h'
  · intro h1 h2 h3 h4 h5
    have hraw : serverRawTitle p = "Unknown Product" := by
      unfold serverRawTitle
      rw [h1, h2, h3, h4, if_pos h5]
    unfold serverExtractTitle serverPostTitle
    rw [hraw]
    rw [if_neg (by decide : ¬ ((("Unknown Product" : String)).data.isEmpty = true))]
    rw [show factNormalizer "Unknown Product" = "Unknown Product" from by decide]
    rw [if_neg (by decide : ¬ ((("Unknown Product" : String)).data.isEmpty = true))]

/-- C6, counterexample: the server cascade never returns absent — on a page
where every extraction strategy fails it manufactures the placeholder title
`"Unknown Product"` instead of reporting "not a product page". -/
theorem server_never_absent_cex :
    serverExtractTitle "Example.com" pageEmpty = "Unknown Product" := by decide

/-- C6, witness: on the all-fail page the client cascade returns absent while
the server cascade returns the placeholder; and a detected title (from the
Sony page) is non-empty. -/
theorem absence_witness :
    detectProduct pageEmpty = none ∧
    serverExtractTitle "Example Store" pageEmpty = "Unknown Product" ∧
    "Sony WH-1000XM4 Headphones" ≠ "" := by
  obtain ⟨ha, -, hc⟩ := absence_and_nonempty_titles pageEmpty "Example Store"
  refine ⟨ha (by decide) (by decide) (by decide) (by decide),
    hc (by decide) (by decide) (by decide) (by decide) (by decide), ?_⟩
  obtain ⟨-, hb, -⟩ := absence_and_nonempty_titles pageSony "Example Store"
  exact hb "Sony WH-1000XM4 Headphones" (by decide)

/-- C4: when a structured-data block declares a `Product` with a truthy name,
both cascades accept the structured-data strategy and never reach the
DOM-selector one: the client returns the structured scan's title verbatim,
while the server returns its Fact-Normalizer image — or the URL-derived
`"Product from <source>"` placeholder when normalization erases the title
entirely (still never the selector-derived title). -/
theorem cascade_priority_structured_first (p : Page) (source : String) (b : SDBlock)
    (hb : some b ∈ p.structuredBlocks) (hty : b.atType = some "Product")
    (hname : truthyStr b.name = true)
    (_hsel : (extractFromCommonSelectors p).isSome = true) :
    (∃ t, extractStructuredData p = some t ∧ detectProduct p = some t) ∧
    (∃ u, serverStructuredScan p.structuredBlocks = some u ∧
        serverExtractTitle source p =
          (if (factNormalizer u).data.isEmpty then "Product from " ++ source
           else factNormalizer u)) := by
  obtain ⟨n, hn⟩ : ∃ n, b.name = some n := by
    cases hbn : b.name with
    | none => rw [hbn] at hname; simp [truthyStr] at hname
    | some n => exact ⟨n, rfl⟩
  have hcond : (b.atType == some "Product" && truthyStr b.name) = true := by
    rw [hty, hname]
    simp
  constructor
  · have hct : clientBlockTitle b = some n := by
      unfold clientBlockTitle
      rw [if_pos hcond]
      exact hn
    have hf : (fun ob => ob.bind clientBlockTitle) (some b) = some n := hct
    obtain ⟨t, ht⟩ := @findSome?_exists_of_mem (Option SDBlock) String p.structuredBlocks
      (fun ob => ob.bind clientBlockTitle) (some b) n hb hf
    have ht2 : extractStructuredData p = some t := ht
    refine ⟨t, ht2, ?_⟩
    unfold detectProduct
    rw [ht2]
  · have hst : serverBlockTitle b = some n := by
      unfold serverBlockTitle
      rw [if_pos hcond]
      exact hn
    have hf : (fun ob => ob.bind serverBlockTitle) (some b) = some n := hst
    obtain ⟨u, hu⟩ := @findSome?_exists_of_mem (Option SDBlock) String p.structuredBlocks
      (fun ob => ob.bind serverBlockTitle) (some b) n hb hf
    have hu2 : serverStructuredScan p.structuredBlocks = some u := hu
    refine ⟨u, hu2, ?_⟩
    have hraw : serverRawTitle p = u := by
      unfold serverRawTitle
      rw [hu2]
    unfold serverExtractTitle serverPostTitle
    rw [hraw]
    by_cases hud : u.data.isEmpty = true
    · rw [if_pos hud]
      rw [if_pos hud]
      have hud2 : u.data = [] := by
        cases hL : u.data with
        | nil => rfl
        | cons c cs => rw [hL] at hud; simp at hud
      have hfnu : factNormalizer u = "" := by
        rw [show factNormalizer u = String.mk (factNormalizerL u.data) from rfl, hud2]
        decide
      rw [hfnu]
      rw [if_pos (by decide)]
    · rw [if_neg hud]

/-- C4, counterexample: a page whose structured data declares a `Product`
named `"$9"` while a DOM title selector holds a clean title: the server
cascade answers with the URL-derived placeholder `"Product from Example.com"`
— not a structured-data-derived title (nor the selector-derived one). -/
theorem cascade_placeholder_cex :
    serverStructuredScan pageDollarNine.structuredBlocks = some "$9" ∧
    serverSelectorScan pageDollarNine = some "Great Gadget Pro Max" ∧
    serverExtractTitle "Example.com" pageDollarNine = "Product from Example.com" := by
  refine ⟨by decide, by decide, by decide⟩

/-- C4, witness: on the Sony page, which exposes both a `Product` block and a
matching title selector, both cascades return the structured-data name. -/
theorem cascade_priority_witness :
    detectProduct pageSony = some "Sony WH-1000XM4 Headphones" ∧
    serverExtractTitle "Amazon.com" pageSony = "Sony WH-1000XM4 Headphones" := by
  obtain ⟨⟨t, ht1, ht2⟩, ⟨u, hu1, hu2⟩⟩ :=
    cascade_priority_structured_first pageSony "Amazon.com" sdSony (by decide) (by decide)
      (by decide) (by decide)
  have hte : extractStructuredData pageSony = some "Sony WH-1000XM4 Headphones" := by decide
  rw [ht1] at hte
  obtain rfl := Option.some.inj hte
  have hue : serverStructuredScan pageSony.structuredBlocks
      = some "Sony WH-1000XM4 Headphones" := by decide
  rw [hu1] at hue
  obtain rfl := Option.some.inj hue
  refine ⟨ht2, ?_⟩
  rw [hu2]
  decide
